import Mathlib

/-!
Verification of the matrix / determinant / eigen comparison program.

The C sources compute element-wise matrix arithmetic, matrix products,
determinants by Gaussian elimination with partial pivoting, and eigenvalues
by QR iteration, each in three strategies (single thread, OpenMP,
fork-per-unit multiprocessing), plus comparison harnesses that time the
strategies and keep the fastest result.

Embedding conventions:
* The arithmetic kernels and the elimination solver use only
  `+ - * /`, `fabs` and comparisons, so their doubles are modeled as exact
  rationals.  The eigen solver divides by Euclidean norms (`sqrt`), so its
  doubles are modeled as real numbers.
* The contiguous `double *` workspaces (`A[i*n+j]`) are modeled as total
  functions `Nat → Nat → ℚ` (entirely determined by their values below the
  bounds actually read).
* NULL pointer arguments are modeled with `Option`; an out-parameter
  `double *out` is modeled by passing the prior contents and returning the
  final contents.
* Child processes and pipes move single values or row segments from a
  snapshot of the parent state back to the parent; they are modeled as the
  value transfers they perform.  Wall-clock times measured by the harness
  are free parameters of the harness models.
-/

namespace FirstProject

/-- Row-major workspace of rational matrix entries; position `(i, j)` of the
    C buffers `A[i*n+j]` (or `data[i][j]`) becomes `A i j`. -/
abbrev Wq := Nat → Nat → ℚ

/-- Write of one workspace entry, `A[i*n+j] = v`. -/
def setE (A : Wq) (i j : Nat) (v : ℚ) : Wq :=
  fun a b => if a = i ∧ b = j then v else A a b

/-- The `Matrix` struct of `matrix_types.h`: a name, row and column counts
    and a rectangular array of doubles. -/
structure CMatrix where
  name : String
  rows : Nat
  cols : Nat
  data : Wq

/-- Function `create_matrix` of `matrix_utils.c`: non-positive extents are
    rejected, otherwise the entries are zero-initialized (`calloc`). -/
def create_matrix (name : String) (rows cols : Nat) : Option CMatrix :=
  if rows = 0 ∨ cols = 0 then none
  else some { name := name, rows := rows, cols := cols, data := fun _ _ => 0 }

/-! ## Arithmetic kernels, `matrix_arithmetic.c` -/

/-- Function `add_matrices`: NULL checks, shape check
    (`m1->rows != m2->rows || m1->cols != m2->cols`), then the element-wise
    sums are written into a freshly created result matrix. -/
def add_matrices (m1 m2 : Option CMatrix) (result_name : Option String) : Option CMatrix :=
  match m1, m2, result_name with
  | some a, some b, some nm =>
    if a.rows ≠ b.rows ∨ a.cols ≠ b.cols then none
    else
      match create_matrix nm a.rows a.cols with
      | none => none
      | some r =>
        some { r with data := fun i j =>
                 if i < a.rows ∧ j < a.cols then a.data i j + b.data i j
                 else r.data i j }
  | _, _, _ => none

/-- Function `subtract_matrices`: as addition, with element-wise `m1 - m2`. -/
def subtract_matrices (m1 m2 : Option CMatrix) (result_name : Option String) : Option CMatrix :=
  match m1, m2, result_name with
  | some a, some b, some nm =>
    if a.rows ≠ b.rows ∨ a.cols ≠ b.cols then none
    else
      match create_matrix nm a.rows a.cols with
      | none => none
      | some r =>
        some { r with data := fun i j =>
                 if i < a.rows ∧ j < a.cols then a.data i j - b.data i j
                 else r.data i j }
  | _, _, _ => none

/-- Accumulation loop computing one product entry:
    `for k: sum += m1->data[i][k] * m2->data[k][j]`. -/
def dotAcc (a b : Wq) (c i j : Nat) : ℚ :=
  (List.range c).foldl (fun s k => s + a i k * b k j) 0

/-- Function `multiply_matrices`: NULL checks, inner-dimension check
    (`m1->cols != m2->rows`), result of shape `m1->rows x m2->cols` whose
    entries are the accumulated dot products. -/
def multiply_matrices (m1 m2 : Option CMatrix) (result_name : Option String) : Option CMatrix :=
  match m1, m2, result_name with
  | some a, some b, some nm =>
    if a.cols ≠ b.rows then none
    else
      match create_matrix nm a.rows b.cols with
      | none => none
      | some r =>
        some { r with data := fun i j =>
                 if i < a.rows ∧ j < b.cols then dotAcc a.data b.data a.cols i j
                 else r.data i j }
  | _, _, _ => none

/-! ## Strategy variants of the arithmetic kernels
    (file `matrix_arithmetic_parallel.c`).  The `exec_time` out-parameter
    records wall-clock time and does not influence the data flow; it is not
    part of the model. -/

/-- Function `add_matrices_single`: same guards and element-wise loop as
    `add_matrices` (without the log output). -/
def add_matrices_single (m1 m2 : Option CMatrix) (result_name : Option String) : Option CMatrix :=
  match m1, m2, result_name with
  | some a, some b, some nm =>
    if a.rows ≠ b.rows ∨ a.cols ≠ b.cols then none
    else
      match create_matrix nm a.rows a.cols with
      | none => none
      | some r =>
        some { r with data := fun i j =>
                 if i < a.rows ∧ j < a.cols then a.data i j + b.data i j
                 else r.data i j }
  | _, _, _ => none

/-- Function `add_matrices_openmp`: the same element-wise loop under
    `#pragma omp parallel for collapse(2)`; every cell is written once by
    exactly one worker, so the computed matrix is that of the sequential
    loop. -/
def add_matrices_openmp (m1 m2 : Option CMatrix) (result_name : Option String) : Option CMatrix :=
  match m1, m2, result_name with
  | some a, some b, some nm =>
    if a.rows ≠ b.rows ∨ a.cols ≠ b.cols then none
    else
      match create_matrix nm a.rows a.cols with
      | none => none
      | some r =>
        some { r with data := fun i j =>
                 if i < a.rows ∧ j < a.cols then a.data i j + b.data i j
                 else r.data i j }
  | _, _, _ => none

/-- Payload of the per-element child of `add_matrices_multiprocess`: the one
    double `m1->data[i][j] + m2->data[i][j]` written to that element's pipe. -/
def addChildPayload (a b : Wq) (i j : Nat) : ℚ := a i j + b i j

/-- Function `add_matrices_multiprocess`: one child and one pipe per element;
    the parent reads every pipe back into the matching `result->data[i][j]`
    and reaps each child. -/
def add_matrices_multiprocess (m1 m2 : Option CMatrix) (result_name : Option String) : Option CMatrix :=
  match m1, m2, result_name with
  | some a, some b, some nm =>
    if a.rows ≠ b.rows ∨ a.cols ≠ b.cols then none
    else
      match create_matrix nm a.rows a.cols with
      | none => none
      | some r =>
        some { r with data := fun i j =>
                 if i < a.rows ∧ j < a.cols then addChildPayload a.data b.data i j
                 else r.data i j }
  | _, _, _ => none

/-- Function `subtract_matrices_single`. -/
def subtract_matrices_single (m1 m2 : Option CMatrix) (result_name : Option String) : Option CMatrix :=
  match m1, m2, result_name with
  | some a, some b, some nm =>
    if a.rows ≠ b.rows ∨ a.cols ≠ b.cols then none
    else
      match create_matrix nm a.rows a.cols with
      | none => none
      | some r =>
        some { r with data := fun i j =>
                 if i < a.rows ∧ j < a.cols then a.data i j - b.data i j
                 else r.data i j }
  | _, _, _ => none

/-- Function `subtract_matrices_openmp`. -/
def subtract_matrices_openmp (m1 m2 : Option CMatrix) (result_name : Option String) : Option CMatrix :=
  match m1, m2, result_name with
  | some a, some b, some nm =>
    if a.rows ≠ b.rows ∨ a.cols ≠ b.cols then none
    else
      match create_matrix nm a.rows a.cols with
      | none => none
      | some r =>
        some { r with data := fun i j =>
                 if i < a.rows ∧ j < a.cols then a.data i j - b.data i j
                 else r.data i j }
  | _, _, _ => none

/-- Payload of the per-element child of `subtract_matrices_multiprocess`. -/
def subChildPayload (a b : Wq) (i j : Nat) : ℚ := a i j - b i j

/-- Function `subtract_matrices_multiprocess`. -/
def subtract_matrices_multiprocess (m1 m2 : Option CMatrix) (result_name : Option String) : Option CMatrix :=
  match m1, m2, result_name with
  | some a, some b, some nm =>
    if a.rows ≠ b.rows ∨ a.cols ≠ b.cols then none
    else
      match create_matrix nm a.rows a.cols with
      | none => none
      | some r =>
        some { r with data := fun i j =>
                 if i < a.rows ∧ j < a.cols then subChildPayload a.data b.data i j
                 else r.data i j }
  | _, _, _ => none

/-- Function `multiply_matrices_single`. -/
def multiply_matrices_single (m1 m2 : Option CMatrix) (result_name : Option String) : Option CMatrix :=
  match m1, m2, result_name with
  | some a, some b, some nm =>
    if a.cols ≠ b.rows then none
    else
      match create_matrix nm a.rows b.cols with
      | none => none
      | some r =>
        some { r with data := fun i j =>
                 if i < a.rows ∧ j < b.cols then dotAcc a.data b.data a.cols i j
                 else r.data i j }
  | _, _, _ => none

/-- Function `multiply_matrices_openmp`. -/
def multiply_matrices_openmp (m1 m2 : Option CMatrix) (result_name : Option String) : Option CMatrix :=
  match m1, m2, result_name with
  | some a, some b, some nm =>
    if a.cols ≠ b.rows then none
    else
      match create_matrix nm a.rows b.cols with
      | none => none
      | some r =>
        some { r with data := fun i j =>
                 if i < a.rows ∧ j < b.cols then dotAcc a.data b.data a.cols i j
                 else r.data i j }
  | _, _, _ => none

/-- Payload of the per-element child of `multiply_matrices_multiprocess`:
    the accumulated dot product of row `i` and column `j`. -/
def mulChildPayload (a b : Wq) (c i j : Nat) : ℚ := dotAcc a b c i j

/-- Function `multiply_matrices_multiprocess`. -/
def multiply_matrices_multiprocess (m1 m2 : Option CMatrix) (result_name : Option String) : Option CMatrix :=
  match m1, m2, result_name with
  | some a, some b, some nm =>
    if a.cols ≠ b.rows then none
    else
      match create_matrix nm a.rows b.cols with
      | none => none
      | some r =>
        some { r with data := fun i j =>
                 if i < a.rows ∧ j < b.cols then mulChildPayload a.data b.data a.cols i j
                 else r.data i j }
  | _, _, _ => none

/-! ## Elimination solver
    (`determinant_gauss.c` and the variants of the parallel determinant
    file, `determinant_single` / `determinant_openmp` /
    `determinant_multiprocess`). -/

/-- Constant `PIVOT_EPS`. -/
def pivotEps : ℚ := 1 / 10 ^ 12

/-- Partial-pivot search, lines 27-37 of `determinant_gauss.c`: scan rows
    `i = k+1 .. n-1` keeping the running row index and magnitude of the
    largest `|A[i][k]|`; the running row is replaced only on a strict
    increase (`v > max_abs`), so ties keep the earlier row.  Returns the
    pair (pivot_row, max_abs). -/
def pivotStep (A : Wq) (k : Nat) (acc : Nat × ℚ) (t : Nat) : Nat × ℚ :=
  let i := k + 1 + t
  let v := |A i k|
  if acc.2 < v then (i, v) else acc

/-- The pivot search is the scan of `pivotStep` over the trip counts
    `t = 0 .. n-k-2` (row `i = k+1+t`), started at `(k, |A[k][k]|)`. -/
def pivotSearch (A : Wq) (n k : Nat) : Nat × ℚ :=
  (List.range (n - (k + 1))).foldl (pivotStep A k) (k, |A k k|)

/-- Row swap of elimination step `k` (lines 48-55): columns `j = k .. n-1`
    of rows `k` and `pivot_row` are exchanged through a temporary. -/
def swapStep (k pr : Nat) (B : Wq) (t : Nat) : Wq :=
  let j := k + t
  let tmp := B k j
  let B1 := setE B k j (B pr j)
  setE B1 pr j tmp

/-- The row swap is `swapStep` over the columns `j = k .. n-1`
    (trip counts `t = 0 .. n-k-1`). -/
def swapRowsFrom (A : Wq) (n k pr : Nat) : Wq :=
  (List.range (n - k)).foldl (swapStep k pr) A

/-- Update of one row `i > k` (lines 59-65): `factor = A[i][k] / A[k][k]`,
    the entry below the pivot is set to exact zero, and
    `A[i][j] -= factor * A[k][j]` for the columns `j = k+1 .. n-1`. -/
def rowUpdStep (i k : Nat) (factor : ℚ) (B : Wq) (t : Nat) : Wq :=
  let j := k + 1 + t
  setE B i j (B i j - factor * B k j)

/-- The update of row `i`: `factor` is read before the below-pivot entry is
    zeroed, then `rowUpdStep` runs over the columns `j = k+1 .. n-1`. -/
def elimRow (A : Wq) (n k i : Nat) : Wq :=
  (List.range (n - (k + 1))).foldl (rowUpdStep i k (A i k / A k k)) (setE A i k 0)

/-- The elimination of step `k`: the row update applied to every row
    `i = k+1 .. n-1`. -/
def elimBelow (A : Wq) (n k : Nat) : Wq :=
  (List.range (n - (k + 1))).foldl (fun B t => elimRow B n k (k + 1 + t)) A

/-- The elimination loop over the pivot columns (lines 27-73 of
    `determinant_gauss.c`, identical in `determinant_single` and, modulo
    the omp pragma on the row updates, `determinant_openmp`): for each
    step, pivot search; early successful exit with determinant exactly `0`
    when the chosen pivot's magnitude is below `PIVOT_EPS`; otherwise swap
    (flipping the running sign) when the pivot row differs from `k`, then
    eliminate below the pivot.  After the last step the determinant is
    accumulated as `det = det_sign; for i: det *= A[i][i]`. -/
def gaussLoop (n : Nat) : List Nat → Wq → ℚ → ℚ
  | [], A, sign => (List.range n).foldl (fun d i => d * A i i) sign
  | k :: ks, A, sign =>
    let pr := (pivotSearch A n k).1
    if |A pr k| < pivotEps then 0
    else
      let A1 := if pr ≠ k then swapRowsFrom A n k pr else A
      let sign1 := if pr ≠ k then -sign else sign
      gaussLoop n ks (elimBelow A1 n k) sign1

/-- The whole elimination, steps `k = 0 .. n-1` with sign starting at `+1`,
    on the contiguous copy of the input. -/
def detGaussCore (n : Nat) (A : Wq) : ℚ :=
  gaussLoop n (List.range n) A 1

/-- Function `determinant_gauss_partial_pivot`.  `m = none` models a NULL
    matrix pointer, `outOk = false` a NULL `out_det` pointer, `d0` the
    contents of `*out_det` before the call; the result is the pair
    (return value, contents of `*out_det` after the call). -/
def determinant_gauss_partial_pivot (m : Option CMatrix) (outOk : Bool) (d0 : ℚ) : Nat × ℚ :=
  match m with
  | none => (0, d0)
  | some mm =>
    if outOk = false then (0, d0)
    else if mm.rows ≠ mm.cols then (0, d0)
    else (1, detGaussCore mm.rows mm.data)

/-- Function `determinant_single` of the parallel determinant file: guard
    `!m || !out_det || m->rows != m->cols`, then the same elimination. -/
def determinant_single (m : Option CMatrix) (outOk : Bool) (d0 : ℚ) : Nat × ℚ :=
  match m with
  | none => (0, d0)
  | some mm =>
    if outOk = false then (0, d0)
    else if mm.rows ≠ mm.cols then (0, d0)
    else (1, gaussLoop mm.rows (List.range mm.rows) mm.data 1)

/-- Function `determinant_openmp`: textually the loop of
    `determinant_single` with the row updates of each step under
    `#pragma omp parallel for`; distinct iterations write distinct rows, so
    the computed workspace is that of the sequential row updates. -/
def determinant_openmp (m : Option CMatrix) (outOk : Bool) (d0 : ℚ) : Nat × ℚ :=
  match m with
  | none => (0, d0)
  | some mm =>
    if outOk = false then (0, d0)
    else if mm.rows ≠ mm.cols then (0, d0)
    else (1, gaussLoop mm.rows (List.range mm.rows) mm.data 1)

/-- Row segment computed by the per-row child of
    `determinant_multiprocess` (lines 199-213): from the forked snapshot of
    `A`, `buf[0] = 0` and `buf[j-k] = A[i][j] - factor * A[k][j]`. -/
def childRowSeg (A : Wq) (k i : Nat) : Nat → ℚ :=
  fun t =>
    if t = 0 then 0
    else A i (k + t) - (A i k / A k k) * A k (k + t)

/-- Parent-side reassembly of one elimination step of
    `determinant_multiprocess`: every row `i = k+1 .. n-1` receives its
    child's segment back over that row's pipe, written into columns
    `j = k .. n-1` as `A[i][j] = buf[j-k]`; all children were forked from
    the same pre-step snapshot. -/
def mpElimStep (A : Wq) (n k : Nat) : Wq :=
  fun i j =>
    if k + 1 ≤ i ∧ i < n ∧ k ≤ j ∧ j < n then childRowSeg A k i (j - k)
    else A i j

/-- The elimination loop of `determinant_multiprocess`: pivoting and
    swapping in the parent exactly as in `determinant_single`, with the row
    updates of each step performed by the per-row children. -/
def mpGaussLoop (n : Nat) : List Nat → Wq → ℚ → ℚ
  | [], A, sign => (List.range n).foldl (fun d i => d * A i i) sign
  | k :: ks, A, sign =>
    let pr := (pivotSearch A n k).1
    if |A pr k| < pivotEps then 0
    else
      let A1 := if pr ≠ k then swapRowsFrom A n k pr else A
      let sign1 := if pr ≠ k then -sign else sign
      mpGaussLoop n ks (mpElimStep A1 n k) sign1

/-- Function `determinant_multiprocess`. -/
def determinant_multiprocess (m : Option CMatrix) (outOk : Bool) (d0 : ℚ) : Nat × ℚ :=
  match m with
  | none => (0, d0)
  | some mm =>
    if outOk = false then (0, d0)
    else if mm.rows ≠ mm.cols then (0, d0)
    else (1, mpGaussLoop mm.rows (List.range mm.rows) mm.data 1)

/-! ## Spec-side pivot selection: leftmost argmax -/

/-- Leftmost argmax over an explicit list of candidate rows, with the value
    function given separately: the entry with the largest value wins and
    ties are broken toward the earlier (smaller) candidate.  This is the
    specification wording of the pivot choice, written independently of the
    scan in the code. -/
def argmaxL (v : Nat → ℚ) : List Nat → Nat × ℚ
  | [] => (0, 0)
  | [i] => (i, v i)
  | i :: is => if v i < (argmaxL v is).2 then argmaxL v is else (i, v i)

/-- The pivot row as the spec words it: the leftmost row among
    `k, k+1, .., n-1` maximizing the pivot-column magnitude. -/
def pivotSpec (A : Wq) (n k : Nat) : Nat :=
  (argmaxL (fun i => |A i k|) (List.range' k (n - k))).1

/-! ## Spec-side elimination loop: swap counting and the final product -/

/-- The elimination as the specification words it: the pivot row is the
    leftmost argmax of the pivot column, a sub-threshold pivot yields
    determinant exactly `0`, each executed row swap is counted once, and on
    completion the determinant is `(-1)^swaps` times the product of the
    final diagonal. -/
def gaussSpecLoop (n : Nat) : List Nat → Wq → Nat → ℚ
  | [], A, swaps => (-1) ^ swaps * (List.range n).foldl (fun d i => d * A i i) 1
  | k :: ks, A, swaps =>
    let pr := pivotSpec A n k
    if |A pr k| < pivotEps then 0
    else if pr ≠ k then
      gaussSpecLoop n ks (elimBelow (swapRowsFrom A n k pr) n k) (swaps + 1)
    else gaussSpecLoop n ks (elimBelow A n k) swaps

/-- The specification-side determinant. -/
def detSpec (n : Nat) (A : Wq) : ℚ := gaussSpecLoop n (List.range n) A 0

/-! ## The divisors used by the elimination -/

/-- The trace of divisors of the elimination: for each step that is not cut
    short by the singularity test, the row updates of that step divide by
    the post-swap pivot entry `A[k][k]` once per updated row. -/
def gaussDivLoop (n : Nat) : List Nat → Wq → List ℚ
  | [], _ => []
  | k :: ks, A =>
    let pr := (pivotSearch A n k).1
    if |A pr k| < pivotEps then []
    else
      let A1 := if pr ≠ k then swapRowsFrom A n k pr else A
      List.replicate (n - (k + 1)) (A1 k k) ++ gaussDivLoop n ks (elimBelow A1 n k)

/-- All divisors used over the whole run of the elimination. -/
def gaussDivisors (n : Nat) (A : Wq) : List ℚ := gaussDivLoop n (List.range n) A

/-! ## Eigen solver (file `eigen_qr.c`)

    The Gram-Schmidt decomposition normalizes by Euclidean norms
    (`sqrt`), so the doubles of the eigen solver are modeled as real
    numbers.  All comparisons use the classical order on `ℝ`, hence these
    definitions are noncomputable. -/

/-- Row-major workspace of real matrix entries. -/
abbrev Wr := Nat → Nat → ℝ

/-- Write of one real workspace entry. -/
def setER (A : Wr) (i j : Nat) (v : ℝ) : Wr :=
  fun a b => if a = i ∧ b = j then v else A a b

/-- The `Matrix` struct again, its doubles read as reals, as the eigen
    solver consumes it. -/
structure RMatrix where
  name : String
  rows : Nat
  cols : Nat
  data : Wr

/-- The `EigenResult` struct of `eigen_qr.h`: eigenvalue array, eigenvector
    matrix, problem size and the number of QR rounds executed. -/
structure EigenResult where
  eigenvalues : List ℝ
  eigenvectors : Wr
  n : Nat
  iterations : Nat

/-- Breakdown threshold `1e-14` of the decomposition. -/
noncomputable def gsEps : ℝ := 1 / 10 ^ 14

/-- Orthogonalization stage for column `j` of `qr_decompose_single`
    (lines 58-73 of `eigen_qr.c`): column `j` of `A` is copied into `Q`,
    then for every previous column `k < j` the dot product of `Q[.][k]`
    against column `j` of `A` is accumulated, recorded in `R[k][j]`, and
    subtracted off along `Q[.][k]`. -/
noncomputable def gsOrth (A : Wr) (n j : Nat) (QR : Wr × Wr) : Wr × Wr :=
  let Q0 : Wr := fun a b => if a < n ∧ b = j then A a j else QR.1 a b
  (List.range j).foldl
    (fun p k =>
      let dot := (List.range n).foldl (fun s i => s + p.1 i k * A i j) 0
      (fun a b => if a < n ∧ b = j then p.1 a b - dot * p.1 a k else p.1 a b,
       setER p.2 k j dot))
    (Q0, QR.2)

/-- The Euclidean norm of column `j` after orthogonalization
    (lines 75-79), the quantity tested against the breakdown threshold. -/
noncomputable def gsColNorm (A : Wr) (n j : Nat) (QR : Wr × Wr) : ℝ :=
  Real.sqrt ((List.range n).foldl
    (fun s i => s + (gsOrth A n j QR).1 i j * (gsOrth A n j QR).1 i j) 0)

/-- Processing of one column of `qr_decompose_single` (lines 58-88):
    orthogonalize; fail when the column norm falls below `1e-14`
    (numerically dependent column); otherwise record the norm in `R[j][j]`
    and normalize the column. -/
noncomputable def gsColStep (A : Wr) (n j : Nat) (QR : Wr × Wr) : Option (Wr × Wr) :=
  let QR1 := gsOrth A n j QR
  let nrm := gsColNorm A n j QR
  if nrm < gsEps then none
  else
    some (fun a b => if a < n ∧ b = j then QR1.1 a b / nrm else QR1.1 a b,
          setER QR1.2 j j nrm)

/-- The column loop of `qr_decompose_single`: columns processed left to
    right, any column failure aborting the whole decomposition. -/
noncomputable def gsCols (A : Wr) (n : Nat) : List Nat → Wr × Wr → Option (Wr × Wr)
  | [], QR => some QR
  | j :: js, QR =>
    match gsColStep A n j QR with
    | none => none
    | some QR1 => gsCols A n js QR1

/-- Function `qr_decompose_single`: `Q` and `R` start zeroed (`memset`),
    then every column `j = 0 .. n-1` is processed. -/
noncomputable def qr_decompose_single (A : Wr) (n : Nat) : Option (Wr × Wr) :=
  gsCols A n (List.range n) (fun _ _ => 0, fun _ _ => 0)

/-- Function `matmul_single` (lines 93-103): the accumulated dot product of
    row `i` of `A` and column `j` of `B`. -/
noncomputable def matmul_single (A B : Wr) (n : Nat) : Wr :=
  fun i j => (List.range n).foldl (fun s k => s + A i k * B k j) 0

/-- Function `is_converged` (lines 106-115): no off-diagonal entry may
    exceed the tolerance in magnitude. -/
def isConverged (A : Wr) (n : Nat) (tol : ℝ) : Prop :=
  ∀ i, i < n → ∀ j, j < n → i ≠ j → ¬ (tol < |A i j|)

/-- The accumulated eigenvector matrix starts as the identity. -/
noncomputable def idWr (n : Nat) : Wr := fun a b => if a = b ∧ a < n then 1 else 0

open Classical in
/-- The iteration loop of `eigen_qr_single` (lines 150-167): while rounds
    remain, exit once converged, otherwise decompose (propagating a
    decomposition failure as overall failure), accumulate `V = V * Q` and
    form the next iterate `A = R * Q`.  The returned triple carries the
    final iterate, the accumulated `V` and the executed round count, which
    the wrapper exposes as the `iterations` field. -/
noncomputable def qrIterLoop (n : Nat) (tol : ℝ) : Nat → Nat → Wr → Wr → Option (Wr × Wr × Nat)
  | 0, iter, A, V => some (A, V, iter)
  | fuel + 1, iter, A, V =>
    if isConverged A n tol then some (A, V, iter)
    else
      match qr_decompose_single A n with
      | none => none
      | some QR =>
        qrIterLoop n tol fuel (iter + 1) (matmul_single QR.2 QR.1 n) (matmul_single V QR.1 n)

/-- Function `eigen_qr_single` (lines 125-185): NULL and squareness guard,
    iteration from the copied input with `V` the identity, then the
    eigenvalues are the final diagonal and the eigenvectors the accumulated
    `V`. -/
noncomputable def eigen_qr_single (m : Option RMatrix) (max_iter : Nat) (tol : ℝ) :
    Option EigenResult :=
  match m with
  | none => none
  | some mm =>
    if mm.rows ≠ mm.cols then none
    else
      match qrIterLoop mm.rows tol max_iter 0 mm.data (idWr mm.rows) with
      | none => none
      | some AVit =>
        some { eigenvalues := (List.range mm.rows).map (fun i => AVit.1 i i),
               eigenvectors := AVit.2.1,
               n := mm.rows,
               iterations := AVit.2.2 }

/-- Function `eigen_qr_openmp`: the identical round structure with the
    decomposition loops and matrix products parallelized over disjoint
    index ranges; the computed values are those of the sequential round. -/
noncomputable def eigen_qr_openmp (m : Option RMatrix) (max_iter : Nat) (tol : ℝ) :
    Option EigenResult :=
  match m with
  | none => none
  | some mm =>
    if mm.rows ≠ mm.cols then none
    else
      match qrIterLoop mm.rows tol max_iter 0 mm.data (idWr mm.rows) with
      | none => none
      | some AVit =>
        some { eigenvalues := (List.range mm.rows).map (fun i => AVit.1 i i),
               eigenvectors := AVit.2.1,
               n := mm.rows,
               iterations := AVit.2.2 }

open Classical in
/-- The iteration loop of `eigen_qr_multiprocess` (lines 332-379): per
    round, one child computes the decomposition of the parent's iterate and
    sends `Q` then `R` back over a pipe (modeled as value passing).  When
    the decomposition breaks down, the child exits with status 1 without
    writing, and the parent never observes this: its reads hit end-of-file
    leaving its `Q` and `R` buffers unchanged, `waitpid` discards the exit
    status, and the round proceeds with the stale buffer contents.  The
    loop state therefore carries the parent's `Q` and `R` buffers across
    rounds; no failure is ever reported. -/
noncomputable def mpQrIterLoop (n : Nat) (tol : ℝ) :
    Nat → Nat → Wr → Wr → Wr → Wr → Wr × Wr × Nat
  | 0, iter, A, V, _, _ => (A, V, iter)
  | fuel + 1, iter, A, V, Q, R =>
    if isConverged A n tol then (A, V, iter)
    else
      match qr_decompose_single A n with
      | some QR =>
        mpQrIterLoop n tol fuel (iter + 1) (matmul_single QR.2 QR.1 n)
          (matmul_single V QR.1 n) QR.1 QR.2
      | none =>
        mpQrIterLoop n tol fuel (iter + 1) (matmul_single R Q n)
          (matmul_single V Q n) Q R

/-- Function `eigen_qr_multiprocess`: NULL and squareness guards, then the
    forked-child iteration.  The extra parameters `q0 r0` are the
    indeterminate initial contents of the parent's uninitialized
    `malloc`-allocated `Q` and `R` buffers, read by the first round whose
    child fails.  Unlike `eigen_qr_single`, a decomposition breakdown does
    not produce NULL here: the parent cannot see the child's exit status,
    so a (stale-data) result is still returned. -/
noncomputable def eigen_qr_multiprocess (m : Option RMatrix) (max_iter : Nat) (tol : ℝ)
    (q0 r0 : Wr) : Option EigenResult :=
  match m with
  | none => none
  | some mm =>
    if mm.rows ≠ mm.cols then none
    else
      let AVit := mpQrIterLoop mm.rows tol max_iter 0 mm.data (idWr mm.rows) q0 r0
      some { eigenvalues := (List.range mm.rows).map (fun i => AVit.1 i i),
             eigenvectors := AVit.2.1,
             n := mm.rows,
             iterations := AVit.2.2 }

/-! ## Failure predicates of the eigen computation -/

/-- Failure of the column loop, phrased on the columns: some processed
    column's post-orthogonalization norm falls below the `1e-14`
    breakdown threshold. -/
noncomputable def gsColsFails (A : Wr) (n : Nat) : List Nat → Wr × Wr → Prop
  | [], _ => False
  | j :: js, QR =>
    gsColNorm A n j QR < gsEps ∨
      (match gsColStep A n j QR with
       | none => False
       | some QR1 => gsColsFails A n js QR1)

/-- Failure of the iteration: some executed (not yet converged) round's
    decomposition breaks down. -/
noncomputable def qrLoopFails (n : Nat) (tol : ℝ) : Nat → Wr → Prop
  | 0, _ => False
  | fuel + 1, A =>
    ¬ isConverged A n tol ∧
      (match qr_decompose_single A n with
       | none => True
       | some QR => qrLoopFails n tol fuel (matmul_single QR.2 QR.1 n))

/-! ## Comparison harnesses

    The harnesses time each strategy with `gettimeofday`; wall-clock
    durations are not derivable in the embedding, so the three measured
    times are parameters of the models. -/

/-- Lines 505-519 of `run_operation_comparison`: the running fastest starts
    at the single-thread result and time, and a later strategy replaces it
    only when its time is strictly smaller.  Whether a strategy actually
    produced a result is not consulted here. -/
def selectFastestOp (r1 r2 r3 : Option CMatrix) (t1 t2 t3 : ℚ) : Option CMatrix :=
  let fr := r1
  let ft := t1
  let fr2 := if t2 < ft then r2 else fr
  let ft2 := if t2 < ft then t2 else ft
  if t3 < ft2 then r3 else fr2

/-- Function `run_operation_comparison`: NULL guards, dispatch of the three
    strategies on the operation name (an unknown name leaves every result
    NULL), fastest selection, then the chosen result is renamed to the
    requested name (`strncpy`). -/
def run_operation_comparison (m1 m2 : Option CMatrix) (result_name : Option String)
    (op : Option String) (metricsOk : Bool) (t1 t2 t3 : ℚ) : Option CMatrix :=
  match m1, m2, result_name, op with
  | some a, some b, some nm, some opn =>
    if metricsOk = false then none
    else
      let result1 :=
        if opn = "Addition" then add_matrices_single (some a) (some b) (some (nm ++ "_single"))
        else if opn = "Subtraction" then
          subtract_matrices_single (some a) (some b) (some (nm ++ "_single"))
        else if opn = "Multiplication" then
          multiply_matrices_single (some a) (some b) (some (nm ++ "_single"))
        else none
      let result2 :=
        if opn = "Addition" then add_matrices_openmp (some a) (some b) (some (nm ++ "_openmp"))
        else if opn = "Subtraction" then
          subtract_matrices_openmp (some a) (some b) (some (nm ++ "_openmp"))
        else if opn = "Multiplication" then
          multiply_matrices_openmp (some a) (some b) (some (nm ++ "_openmp"))
        else none
      let result3 :=
        if opn = "Addition" then
          add_matrices_multiprocess (some a) (some b) (some (nm ++ "_multiproc"))
        else if opn = "Subtraction" then
          subtract_matrices_multiprocess (some a) (some b) (some (nm ++ "_multiproc"))
        else if opn = "Multiplication" then
          multiply_matrices_multiprocess (some a) (some b) (some (nm ++ "_multiproc"))
        else none
      match selectFastestOp result1 result2 result3 t1 t2 t3 with
      | none => none
      | some r => some { r with name := nm }
  | _, _, _, _ => none

/-- Lines 471-485 of `run_eigen_comparison`: the fastest starts at the
    single-thread result, with time `1e99` when that strategy failed; a
    later strategy replaces it only when it produced a result and its time
    is strictly smaller. -/
noncomputable def selectFastestEigen (r1 r2 r3 : Option EigenResult) (t1 t2 t3 : ℝ) :
    Option EigenResult :=
  let ft :=
    match r1 with
    | some _ => t1
    | none => 10 ^ 99
  let fr := r1
  let fr2 := match r2 with | some _ => if t2 < ft then r2 else fr | none => fr
  let ft2 := match r2 with | some _ => if t2 < ft then t2 else ft | none => ft
  match r3 with
  | some _ => if t3 < ft2 then r3 else fr2
  | none => fr2

/-- Function `run_eigen_comparison`: NULL and squareness guards, the three
    eigen strategies, then the fastest selection among those that reported
    a result.  The `q0 r0` parameters are the indeterminate initial buffer
    contents consumed by the multiprocess strategy. -/
noncomputable def run_eigen_comparison (m : Option RMatrix) (max_iter : Nat) (tol : ℝ)
    (q0 r0 : Wr) (metricsOk : Bool) (t1 t2 t3 : ℝ) : Option EigenResult :=
  match m with
  | none => none
  | some mm =>
    if metricsOk = false then none
    else if mm.rows ≠ mm.cols then none
    else
      selectFastestEigen
        (eigen_qr_single (some mm) max_iter tol)
        (eigen_qr_openmp (some mm) max_iter tol)
        (eigen_qr_multiprocess (some mm) max_iter tol q0 r0)
        t1 t2 t3

/-- The selection rule as the spec words it: the least elapsed time wins,
    and exact ties prefer the earlier strategy in the order Sequential
    (index 0), SharedMemory (index 1), ProcessIsolated (index 2). -/
def specFastestIdx {α : Type} [LinearOrder α] (t1 t2 t3 : α) : Nat :=
  if t1 ≤ t2 ∧ t1 ≤ t3 then 0
  else if t2 ≤ t3 then 1 else 2

/-- The eigen selection as the spec words it: among the strategies that
    succeeded, the one with the least elapsed time wins, exact ties
    preferring the earlier of Sequential, SharedMemory, ProcessIsolated; a
    lone success wins unconditionally and no success yields no result. -/
noncomputable def specFastestSuccess (r1 r2 r3 : Option EigenResult) (t1 t2 t3 : ℝ) :
    Option EigenResult :=
  match r1, r2, r3 with
  | none, none, none => none
  | some a, none, none => some a
  | none, some b, none => some b
  | none, none, some c => some c
  | some a, some b, none => if t2 < t1 then some b else some a
  | some a, none, some c => if t3 < t1 then some c else some a
  | none, some b, some c => if t3 < t2 then some c else some b
  | some a, some b, some c => [some a, some b, some c].getD (specFastestIdx t1 t2 t3) none

/-! ## Concrete matrices used by the witnesses -/

/-- A concrete 2 x 2 matrix. -/
def WA : CMatrix :=
  ⟨"A", 2, 2, fun i j =>
    if i = 0 ∧ j = 0 then 1 else if i = 0 ∧ j = 1 then 2
    else if i = 1 ∧ j = 0 then 3 else if i = 1 ∧ j = 1 then 4 else 0⟩

/-- A second concrete 2 x 2 matrix. -/
def WB : CMatrix :=
  ⟨"B", 2, 2, fun i j =>
    if i = 0 ∧ j = 0 then 5 else if i = 0 ∧ j = 1 then 6
    else if i = 1 ∧ j = 0 then 7 else if i = 1 ∧ j = 1 then 8 else 0⟩

/-- A 2 x 3 matrix, shape-incompatible with the 2 x 2 ones for addition. -/
def WC : CMatrix := ⟨"C", 2, 3, fun _ _ => 1⟩

/-- The 2 x 2 identity. -/
def WI2 : CMatrix := ⟨"I2", 2, 2, fun i j => if i = j then 1 else 0⟩

/-- A 2 x 2 matrix whose second row is zero. -/
def WZ2 : CMatrix :=
  ⟨"Z2", 2, 2, fun i j => if i = 0 then (if j = 0 then 1 else 2) else 0⟩

/-- A 2 x 2 matrix whose elimination executes a row swap. -/
def WS : CMatrix :=
  ⟨"S", 2, 2, fun i j =>
    if i = 0 ∧ j = 0 then 0 else if i = 0 ∧ j = 1 then 1
    else if i = 1 ∧ j = 0 then 2 else if i = 1 ∧ j = 1 then 3 else 0⟩

/-- The 1 x 1 zero matrix. -/
def WZ1 : CMatrix := ⟨"Z1", 1, 1, fun _ _ => 0⟩

/-- A concrete 2 x 2 diagonal matrix for the eigen solver. -/
noncomputable def D23 : RMatrix :=
  ⟨"D", 2, 2, fun i j => if i = j then (if i = 0 then 2 else 3) else 0⟩

/-- A concrete 1 x 1 matrix for the eigen solver. -/
noncomputable def R1 : RMatrix := ⟨"E", 1, 1, fun _ _ => 1⟩

/-- A concrete eigen result, used by the harness witness. -/
noncomputable def ER1 : EigenResult := ⟨[1], idWr 1, 1, 0⟩

/-! ## Pointwise characterization of the workspace operations -/

theorem setE_apply (A : Wq) (i j : Nat) (v : ℚ) (a b : Nat) :
    setE A i j v a b = if a = i ∧ b = j then v else A a b := rfl

/-- Unfolding of the absolute value into the branch form `fabs` computes. -/
theorem rabs_def (a : ℚ) : |a| = if 0 ≤ a then a else -a := by
  rcases le_or_lt 0 a with h | h
  · rw [abs_of_nonneg h, if_pos h]
  · rw [abs_of_neg h, if_neg (not_le.mpr h)]

theorem swapStep_apply (k pr : Nat) (B : Wq) (t a b : Nat) :
    swapStep k pr B t a b
      = if a = pr ∧ b = k + t then B k (k + t)
        else if a = k ∧ b = k + t then B pr (k + t)
        else B a b := rfl

theorem rowUpdStep_apply (i k : Nat) (f : ℚ) (B : Wq) (t a b : Nat) :
    rowUpdStep i k f B t a b
      = if a = i ∧ b = k + 1 + t then B i (k + 1 + t) - f * B k (k + 1 + t)
        else B a b := rfl

theorem swapFold_apply (A : Wq) (k pr : Nat) (hpk : pr ≠ k) (c : Nat) (a b : Nat) :
    ((List.range c).foldl (swapStep k pr) A) a b
      = if k ≤ b ∧ b < k + c then
          (if a = k then A pr b else if a = pr then A k b else A a b)
        else A a b := by
  induction c generalizing a b with
  | zero =>
    simp only [List.range_zero, List.foldl_nil]
    exact (if_neg (by omega)).symm
  | succ c ih =>
    rw [List.range_succ, List.foldl_append, List.foldl_cons, List.foldl_nil,
      swapStep_apply]
    have hedge : ¬ (k ≤ k + c ∧ k + c < k + c) := by omega
    have hpk2 : ¬ (pr = k) := hpk
    have hkp : ¬ (k = pr) := fun h => hpk h.symm
    by_cases hb : b = k + c
    · have hc1 : k ≤ k + c ∧ k + c < k + (c + 1) := by omega
      by_cases ha : a = pr
      · simp [ih, hb, ha, hedge, hpk2, hc1]
      · by_cases ha2 : a = k
        · simp [ih, hb, ha, ha2, hedge, hkp, hc1]
        · simp [ih, hb, ha, ha2, hedge, hc1]
    · by_cases hin : k ≤ b ∧ b < k + c
      · have hc1 : k ≤ b ∧ b < k + (c + 1) := by omega
        simp [ih, hb, hin, hc1]
      · have hc1 : ¬ (k ≤ b ∧ b < k + (c + 1)) := by omega
        simp [ih, hb, hin, hc1]

theorem swapRowsFrom_apply (A : Wq) (n k pr : Nat) (hpk : pr ≠ k) (a b : Nat) :
    swapRowsFrom A n k pr a b
      = if k ≤ b ∧ b < n then
          (if a = k then A pr b else if a = pr then A k b else A a b)
        else A a b := by
  rw [swapRowsFrom, swapFold_apply A k pr hpk (n - k) a b]
  by_cases h : k ≤ b ∧ b < n
  · rw [if_pos (by omega), if_pos h]
  · rw [if_neg (by omega), if_neg h]

theorem rowUpdFold_apply (A1 : Wq) (k i : Nat) (f : ℚ) (hki : k < i) (c : Nat) (a b : Nat) :
    ((List.range c).foldl (rowUpdStep i k f) A1) a b
      = if a = i ∧ k + 1 ≤ b ∧ b < k + 1 + c then A1 i b - f * A1 k b
        else A1 a b := by
  induction c generalizing a b with
  | zero =>
    simp only [List.range_zero, List.foldl_nil]
    exact (if_neg (by omega)).symm
  | succ c ih =>
    rw [List.range_succ, List.foldl_append, List.foldl_cons, List.foldl_nil,
      rowUpdStep_apply]
    have hedge : ¬ (i = i ∧ k + 1 ≤ k + 1 + c ∧ k + 1 + c < k + 1 + c) := by omega
    have hkrow : ¬ (k = i ∧ k + 1 ≤ k + 1 + c ∧ k + 1 + c < k + 1 + c) := by omega
    by_cases hab : a = i ∧ b = k + 1 + c
    · rw [if_pos hab, ih, ih, if_neg hedge, if_neg hkrow,
        if_pos (by omega : a = i ∧ k + 1 ≤ b ∧ b < k + 1 + (c + 1)), hab.2]
    · rw [if_neg hab, ih]
      by_cases hin : a = i ∧ k + 1 ≤ b ∧ b < k + 1 + c
      · rw [if_pos hin, if_pos (by omega)]
      · rw [if_neg hin, if_neg (by rintro ⟨h1, h2, h3⟩; exact hin ⟨h1, h2, by omega⟩)]

theorem elimRow_apply (A : Wq) (n k i : Nat) (hki : k < i) (a b : Nat) :
    elimRow A n k i a b
      = if a = i then
          (if b = k then 0
           else if k + 1 ≤ b ∧ b < n then A i b - (A i k / A k k) * A k b
           else A a b)
        else A a b := by
  rw [elimRow, rowUpdFold_apply (setE A i k 0) k i (A i k / A k k) hki (n - (k + 1)) a b]
  simp only [setE_apply]
  have hkirow : ¬ (k = i) := by omega
  by_cases ha : a = i
  · by_cases hb : b = k
    · have h1 : ¬ (k + 1 ≤ k) := by omega
      simp [ha, hb, h1]
    · by_cases hin : k + 1 ≤ b ∧ b < n
      · have hc2 : k + 1 ≤ b ∧ b < k + 1 + (n - (k + 1)) := by omega
        simp [ha, hb, hin, hc2, hkirow]
      · have hc2 : ¬ (k + 1 ≤ b ∧ b < k + 1 + (n - (k + 1))) := by omega
        simp [ha, hb, hin, hc2]
  · simp [ha]

theorem elimBelowFold_apply (A : Wq) (n k : Nat) (c : Nat) (a b : Nat) :
    ((List.range c).foldl (fun B t => elimRow B n k (k + 1 + t)) A) a b
      = if k + 1 ≤ a ∧ a < k + 1 + c then elimRow A n k a a b else A a b := by
  induction c generalizing a b with
  | zero =>
    simp only [List.range_zero, List.foldl_nil]
    exact (if_neg (by omega)).symm
  | succ c ih =>
    rw [List.range_succ, List.foldl_append, List.foldl_cons, List.foldl_nil,
      elimRow_apply _ n k _ (by omega) a b]
    have hself : ¬ (k + 1 ≤ k + 1 + c ∧ k + 1 + c < k + 1 + c) := by omega
    have hrowk : ¬ (k + 1 ≤ k ∧ k < k + 1 + c) := by omega
    by_cases ha : a = k + 1 + c
    · have hnew : k + 1 ≤ k + 1 + c ∧ k + 1 + c < k + 1 + (c + 1) := by omega
      rw [if_pos ha]
      have hgoal : (if b = k then (0 : ℚ)
          else if k + 1 ≤ b ∧ b < n then
            ((List.range c).foldl (fun B t => elimRow B n k (k + 1 + t)) A) (k + 1 + c) b
              - (((List.range c).foldl (fun B t => elimRow B n k (k + 1 + t)) A) (k + 1 + c) k
                  / ((List.range c).foldl (fun B t => elimRow B n k (k + 1 + t)) A) k k)
                * ((List.range c).foldl (fun B t => elimRow B n k (k + 1 + t)) A) k b
          else ((List.range c).foldl (fun B t => elimRow B n k (k + 1 + t)) A) a b)
          = if b = k then 0
            else if k + 1 ≤ b ∧ b < n then A (k + 1 + c) b - (A (k + 1 + c) k / A k k) * A k b
            else A a b := by
        by_cases hb : b = k
        · simp [hb]
        · by_cases hin : k + 1 ≤ b ∧ b < n
          · simp [hb, hin, ih, hself, hrowk, ha]
          · simp [hb, hin, ih, hself, ha]
      rw [hgoal, if_pos (by omega : k + 1 ≤ a ∧ a < k + 1 + (c + 1)),
        elimRow_apply A n k a (by omega) a b, if_pos rfl, ha]
    · rw [if_neg ha, ih]
      by_cases hin : k + 1 ≤ a ∧ a < k + 1 + c
      · rw [if_pos hin, if_pos (by omega : k + 1 ≤ a ∧ a < k + 1 + (c + 1))]
      · rw [if_neg hin, if_neg (by omega : ¬ (k + 1 ≤ a ∧ a < k + 1 + (c + 1)))]

theorem elimBelow_apply (A : Wq) (n k : Nat) (a b : Nat) :
    elimBelow A n k a b
      = if k + 1 ≤ a ∧ a < n then elimRow A n k a a b else A a b := by
  rw [elimBelow, elimBelowFold_apply A n k (n - (k + 1)) a b]
  by_cases h : k + 1 ≤ a ∧ a < n
  · rw [if_pos (by omega), if_pos h]
  · rw [if_neg (by omega), if_neg h]

/-! ## Pivot search invariants -/

theorem foldl_keeps {α β : Type} (f : β → α → β) (b : β) (l : List α)
    (h : ∀ x ∈ l, f b x = b) : l.foldl f b = b := by
  induction l with
  | nil => rfl
  | cons x xs ih =>
    rw [List.foldl_cons, h x (by simp)]
    exact ih fun y hy => h y (by simp [hy])

theorem pivotStep_apply (A : Wq) (k : Nat) (acc : Nat × ℚ) (t : Nat) :
    pivotStep A k acc t
      = if acc.2 < |A (k + 1 + t) k| then (k + 1 + t, |A (k + 1 + t) k|) else acc := rfl

theorem pivotFold_inv (A : Wq) (k c : Nat) :
    ((List.range c).foldl (pivotStep A k) (k, |A k k|)).2
        = |A ((List.range c).foldl (pivotStep A k) (k, |A k k|)).1 k|
    ∧ (((List.range c).foldl (pivotStep A k) (k, |A k k|)).1 = k
        ∨ (k + 1 ≤ ((List.range c).foldl (pivotStep A k) (k, |A k k|)).1
            ∧ ((List.range c).foldl (pivotStep A k) (k, |A k k|)).1 < k + 1 + c))
    ∧ |A k k| ≤ ((List.range c).foldl (pivotStep A k) (k, |A k k|)).2
    ∧ (∀ t, t < c → |A (k + 1 + t) k| ≤ ((List.range c).foldl (pivotStep A k) (k, |A k k|)).2) := by
  induction c with
  | zero => simp
  | succ c ih =>
    obtain ⟨ih1, ih2, ih3, ih4⟩ := ih
    rw [List.range_succ, List.foldl_append, List.foldl_cons, List.foldl_nil,
      pivotStep_apply]
    by_cases h : ((List.range c).foldl (pivotStep A k) (k, |A k k|)).2 < |A (k + 1 + c) k|
    · rw [if_pos h]
      refine ⟨rfl, Or.inr (by omega), le_of_lt (lt_of_le_of_lt ih3 h), ?_⟩
      intro t ht
      rcases Nat.lt_succ_iff_lt_or_eq.mp ht with ht2 | ht2
      · exact le_of_lt (lt_of_le_of_lt (ih4 t ht2) h)
      · rw [ht2]
    · rw [if_neg h]
      refine ⟨ih1, ?_, ih3, ?_⟩
      · rcases ih2 with h2 | h2
        · exact Or.inl h2
        · exact Or.inr (by omega)
      · intro t ht
        rcases Nat.lt_succ_iff_lt_or_eq.mp ht with ht2 | ht2
        · exact ih4 t ht2
        · rw [ht2]; exact not_lt.mp h

theorem pivotSearch_snd (A : Wq) (n k : Nat) :
    (pivotSearch A n k).2 = |A (pivotSearch A n k).1 k| :=
  (pivotFold_inv A k (n - (k + 1))).1

theorem pivotSearch_bounds (A : Wq) (n k : Nat) (h : k < n) :
    k ≤ (pivotSearch A n k).1 ∧ (pivotSearch A n k).1 < n := by
  rcases (pivotFold_inv A k (n - (k + 1))).2.1 with h2 | h2
  · rw [pivotSearch, h2]; omega
  · rw [pivotSearch]; omega

theorem pivotSearch_ge (A : Wq) (n k : Nat) (i : Nat)
    (h1 : k ≤ i) (h2 : i < n) : |A i k| ≤ (pivotSearch A n k).2 := by
  rcases eq_or_lt_of_le h1 with he | hlt
  · rw [← he]; exact (pivotFold_inv A k (n - (k + 1))).2.2.1
  · have ht : i - (k + 1) < n - (k + 1) := by omega
    have := (pivotFold_inv A k (n - (k + 1))).2.2.2 (i - (k + 1)) ht
    rwa [(by omega : k + 1 + (i - (k + 1)) = i)] at this

theorem pivotSearch_keep (A : Wq) (n k : Nat)
    (h : ∀ t, t < n - (k + 1) → |A (k + 1 + t) k| ≤ |A k k|) :
    pivotSearch A n k = (k, |A k k|) := by
  rw [pivotSearch]
  refine foldl_keeps _ _ _ ?_
  intro t ht
  rw [pivotStep_apply, if_neg (not_lt.mpr (h t (List.mem_range.mp ht)))]

/-! ## Determinant accumulation and strategy agreement -/

theorem diagFold_factor (A : Wq) (n : Nat) (s : ℚ) :
    (List.range n).foldl (fun d i => d * A i i) s
      = s * (List.range n).foldl (fun d i => d * A i i) 1 := by
  induction n generalizing s with
  | zero => simp
  | succ n ih =>
    rw [List.range_succ, List.foldl_append, List.foldl_append,
      List.foldl_cons, List.foldl_nil, List.foldl_cons, List.foldl_nil, ih s]
    ring

theorem mpElimStep_eq_elimBelow (A : Wq) (n k : Nat) :
    mpElimStep A n k = elimBelow A n k := by
  funext a b
  rw [elimBelow_apply]
  simp only [mpElimStep]
  by_cases hrow : k + 1 ≤ a ∧ a < n
  · rw [if_pos hrow, elimRow_apply A n k a (by omega) a b, if_pos rfl]
    by_cases hb : b = k
    · have hc : k + 1 ≤ a ∧ a < n ∧ k ≤ b ∧ b < n := ⟨hrow.1, hrow.2, by omega, by omega⟩
      rw [if_pos hc, if_pos hb]
      simp [childRowSeg, hb]
    · by_cases hin : k + 1 ≤ b ∧ b < n
      · have hc : k + 1 ≤ a ∧ a < n ∧ k ≤ b ∧ b < n := ⟨hrow.1, hrow.2, by omega, hin.2⟩
        rw [if_pos hc, if_neg hb, if_pos hin]
        have hbk : ¬ (b - k = 0) := by omega
        have hone : k + (b - k) = b := by omega
        rw [childRowSeg, if_neg hbk, hone]
      · have hc : ¬ (k + 1 ≤ a ∧ a < n ∧ k ≤ b ∧ b < n) := by omega
        rw [if_neg hc, if_neg hb, if_neg hin]
  · have hc : ¬ (k + 1 ≤ a ∧ a < n ∧ k ≤ b ∧ b < n) := by omega
    rw [if_neg hc, if_neg hrow]

theorem mpGaussLoop_eq_gaussLoop (n : Nat) (ks : List Nat) :
    ∀ (A : Wq) (sign : ℚ), mpGaussLoop n ks A sign = gaussLoop n ks A sign := by
  induction ks with
  | nil => intro A sign; rfl
  | cons k ks ih =>
    intro A sign
    simp only [mpGaussLoop, gaussLoop]
    by_cases h : |A (pivotSearch A n k).1 k| < pivotEps
    · rw [if_pos h, if_pos h]
    · rw [if_neg h, if_neg h, mpElimStep_eq_elimBelow, ih]

/-! ## Dot-product accumulation as a sum -/

theorem dotAcc_zero (a b : Wq) (i j : Nat) : dotAcc a b 0 i j = 0 := rfl

theorem dotAcc_succ (a b : Wq) (c i j : Nat) :
    dotAcc a b (c + 1) i j = dotAcc a b c i j + a i c * b c j := by
  rw [dotAcc, dotAcc, List.range_succ, List.foldl_append, List.foldl_cons, List.foldl_nil]

theorem dotAcc_eq_sum (a b : Wq) (c i j : Nat) :
    dotAcc a b c i j = ∑ x ∈ Finset.range c, a i x * b x j := by
  induction c with
  | zero => rw [dotAcc_zero]; simp
  | succ c ih => rw [dotAcc_succ, ih, Finset.sum_range_succ]

theorem argmaxL_single (v : Nat → ℚ) (i : Nat) : argmaxL v [i] = (i, v i) := rfl

theorem argmaxL_cons (v : Nat → ℚ) (i j : Nat) (ls : List Nat) :
    argmaxL v (i :: j :: ls)
      = if v i < (argmaxL v (j :: ls)).2 then argmaxL v (j :: ls) else (i, v i) := rfl

theorem argmaxL_collapse (v : Nat → ℚ) (a b : Nat) (l : List Nat) :
    argmaxL v (a :: b :: l) = argmaxL v ((if v a < v b then b else a) :: l) := by
  cases l with
  | nil =>
    rw [argmaxL_cons, argmaxL_single]
    by_cases h : v a < v b
    · rw [if_pos h, if_pos h, argmaxL_single]
    · rw [if_neg h, if_neg h, argmaxL_single]
  | cons c cs =>
    rw [argmaxL_cons]
    have hsnd : (argmaxL v (b :: c :: cs)).2
        = if v b < (argmaxL v (c :: cs)).2 then (argmaxL v (c :: cs)).2 else v b := by
      rw [argmaxL_cons]
      by_cases h : v b < (argmaxL v (c :: cs)).2
      · rw [if_pos h, if_pos h]
      · rw [if_neg h, if_neg h]
    by_cases hab : v a < v b
    · rw [if_pos hab]
      have : v a < (argmaxL v (b :: c :: cs)).2 := by
        rw [hsnd]
        by_cases h : v b < (argmaxL v (c :: cs)).2
        · rw [if_pos h]; exact lt_trans hab h
        · rw [if_neg h]; exact hab
      rw [if_pos this]
    · rw [if_neg hab, hsnd, argmaxL_cons v a c cs]
      by_cases ham : v a < (argmaxL v (c :: cs)).2
      · have hbm : v b < (argmaxL v (c :: cs)).2 := lt_of_le_of_lt (not_lt.mp hab) ham
        rw [if_pos hbm, argmaxL_cons v b c cs, if_pos hbm, if_pos ham]
      · have hno : ¬ v a < (if v b < (argmaxL v (c :: cs)).2 then (argmaxL v (c :: cs)).2 else v b) := by
          by_cases h : v b < (argmaxL v (c :: cs)).2
          · rw [if_pos h]; exact ham
          · rw [if_neg h]; exact hab
        rw [if_neg hno, if_neg ham]

theorem pivotFold_eq_argmaxL (v : Nat → ℚ) (l : List Nat) :
    ∀ (p : Nat),
      l.foldl (fun acc i => if acc.2 < v i then (i, v i) else acc) (p, v p)
        = argmaxL v (p :: l) := by
  induction l with
  | nil => intro p; rw [List.foldl_nil, argmaxL_single]
  | cons b bs ih =>
    intro p
    rw [List.foldl_cons, argmaxL_collapse]
    by_cases h : v p < v b
    · have hstep : (if (p, v p).2 < v b then (b, v b) else (p, v p)) = (b, v b) := if_pos h
      rw [hstep, ih b, if_pos h]
    · have hstep : (if (p, v p).2 < v b then (b, v b) else (p, v p)) = (p, v p) := if_neg h
      rw [hstep, ih p, if_neg h]

theorem pivotSearch_eq_argmaxL (A : Wq) (n k : Nat) (h : k < n) :
    pivotSearch A n k = argmaxL (fun i => |A i k|) (List.range' k (n - k)) := by
  have h1 : List.range' k (n - k) = k :: List.range' (k + 1) (n - (k + 1)) := by
    have h2 : n - k = (n - (k + 1)) + 1 := by omega
    rw [h2]
    rfl
  rw [pivotSearch, h1, List.range'_eq_map_range,
    ← pivotFold_eq_argmaxL (fun i => |A i k|) ((List.range (n - (k + 1))).map ((k + 1) + ·)) k,
    List.foldl_map]
  rfl

theorem pivotSearch_fst_eq_spec (A : Wq) (n k : Nat) (h : k < n) :
    (pivotSearch A n k).1 = pivotSpec A n k := by
  rw [pivotSearch_eq_argmaxL A n k h, pivotSpec]

theorem gaussLoop_eq_specLoop (n : Nat) (ks : List Nat) :
    ∀ (A : Wq) (swaps : Nat), (∀ k ∈ ks, k < n) →
      gaussLoop n ks A ((-1) ^ swaps) = gaussSpecLoop n ks A swaps := by
  induction ks with
  | nil =>
    intro A swaps _
    simp only [gaussLoop, gaussSpecLoop]
    rw [diagFold_factor]
  | cons k ks ih =>
    intro A swaps hks
    have hkn : k < n := hks k (by simp)
    simp only [gaussLoop, gaussSpecLoop]
    rw [pivotSearch_fst_eq_spec A n k hkn]
    by_cases hp : |A (pivotSpec A n k) k| < pivotEps
    · rw [if_pos hp, if_pos hp]
    · rw [if_neg hp, if_neg hp]
      have htail : ∀ x ∈ ks, x < n := fun x hx => hks x (by simp [hx])
      by_cases hswap : pivotSpec A n k ≠ k
      · rw [if_pos hswap, if_pos hswap, if_pos hswap,
          (by ring : -((-1 : ℚ) ^ swaps) = (-1) ^ (swaps + 1)), ih _ _ htail]
      · rw [if_neg hswap, if_neg hswap, if_neg hswap, ih _ _ htail]

theorem detGaussCore_eq_detSpec (n : Nat) (A : Wq) :
    detGaussCore n A = detSpec n A := by
  rw [detGaussCore, detSpec,
    ← gaussLoop_eq_specLoop n (List.range n) A 0 (fun k hk => List.mem_range.mp hk)]
  norm_num

theorem gaussDivLoop_ge (n : Nat) (ks : List Nat) :
    ∀ (A : Wq), (∀ k ∈ ks, k < n) → ∀ d ∈ gaussDivLoop n ks A, pivotEps ≤ |d| := by
  induction ks with
  | nil => intro A _ d hd; simp [gaussDivLoop] at hd
  | cons k ks ih =>
    intro A hks d hd
    have hkn : k < n := hks k (by simp)
    simp only [gaussDivLoop] at hd
    by_cases hp : |A (pivotSearch A n k).1 k| < pivotEps
    · rw [if_pos hp] at hd
      simp at hd
    · rw [if_neg hp] at hd
      rcases List.mem_append.mp hd with hmem | hmem
      · have hd2 := List.eq_of_mem_replicate hmem
        have hb := pivotSearch_bounds A n k hkn
        by_cases hsw : (pivotSearch A n k).1 ≠ k
        · rw [if_pos hsw, swapRowsFrom_apply A n k _ hsw k k,
            if_pos ⟨le_refl k, hkn⟩, if_pos rfl] at hd2
          rw [hd2]
          exact not_lt.mp hp
        · rw [if_neg hsw] at hd2
          rw [not_not.mp hsw] at hp
          rw [hd2]
          exact not_lt.mp hp
      · exact ih _ (fun x hx => hks x (by simp [hx])) d hmem

theorem gaussDivisors_ge (n : Nat) (A : Wq) :
    ∀ d ∈ gaussDivisors n A, pivotEps ≤ |d| :=
  gaussDivLoop_ge n (List.range n) A (fun k hk => List.mem_range.mp hk)

/-! ## Early singular exit, identity matrices, zero rows -/

theorem gaussLoop_small_pivot (n k : Nat) (ks : List Nat) (A : Wq) (sign : ℚ)
    (hk : k < n) (hsmall : ∀ i, k ≤ i → i < n → |A i k| < pivotEps) :
    gaussLoop n (k :: ks) A sign = 0 := by
  have hb := pivotSearch_bounds A n k hk
  simp only [gaussLoop]
  rw [if_pos (hsmall _ hb.1 hb.2)]

theorem gaussLoop_identity (n : Nat) (ks : List Nat) :
    ∀ (A : Wq) (sign : ℚ), (∀ k ∈ ks, k < n) →
      (∀ i j, i < n → j < n → A i j = if i = j then 1 else 0) →
      gaussLoop n ks A sign = sign := by
  induction ks with
  | nil =>
    intro A sign _ hA
    simp only [gaussLoop]
    refine foldl_keeps _ _ _ ?_
    intro x hx
    rw [hA x x (List.mem_range.mp hx) (List.mem_range.mp hx), if_pos rfl, mul_one]
  | cons k ks ih =>
    intro A sign hks hA
    have hkn : k < n := hks k (by simp)
    have hAkk : A k k = 1 := by rw [hA k k hkn hkn, if_pos rfl]
    have hkeep : pivotSearch A n k = (k, |A k k|) := by
      apply pivotSearch_keep
      intro t ht
      have hi : k + 1 + t < n := by omega
      rw [hA (k + 1 + t) k hi hkn, if_neg (by omega : ¬ k + 1 + t = k), hAkk]
      simp
    have hfst : (pivotSearch A n k).1 = k := by rw [hkeep]
    have hnp : ¬ |A k k| < pivotEps := by
      rw [hAkk]
      norm_num [pivotEps]
    have hkk : ¬ (k ≠ k) := by simp
    simp only [gaussLoop]
    rw [hfst, if_neg hnp, if_neg hkk, if_neg hkk]
    apply ih _ sign (fun x hx => hks x (by simp [hx]))
    intro i j hi hj
    rw [elimBelow_apply]
    by_cases hrow : k + 1 ≤ i ∧ i < n
    · rw [if_pos hrow, elimRow_apply A n k i (by omega) i j, if_pos rfl]
      by_cases hjk : j = k
      · rw [if_pos hjk, if_neg (by omega : ¬ i = j)]
      · rw [if_neg hjk]
        by_cases hjn : k + 1 ≤ j ∧ j < n
        · rw [if_pos hjn, (by rw [hA i k hi hkn, if_neg (by omega : ¬ i = k)] : A i k = 0),
            zero_div, zero_mul, sub_zero, hA i j hi hj]
        · rw [if_neg hjn, hA i j hi hj]
    · rw [if_neg hrow, hA i j hi hj]

theorem gaussLoop_zero_row (n : Nat) (cnt : Nat) :
    ∀ (k : Nat) (A : Wq) (sign : ℚ) (r : Nat),
      k + cnt = n →
      k ≤ r → r < n → (∀ j, k ≤ j → j < n → A r j = 0) →
      gaussLoop n (List.range' k cnt) A sign = 0 := by
  induction cnt with
  | zero =>
    intro k A sign r h1 h2 h3 _
    omega
  | succ cnt ih =>
    intro k A sign r hkn hkr hrn hz
    have hk : k < n := by omega
    have hrange : List.range' k (cnt + 1) = k :: List.range' (k + 1) cnt := rfl
    rw [hrange]
    simp only [gaussLoop]
    by_cases hp : |A (pivotSearch A n k).1 k| < pivotEps
    · rw [if_pos hp]
    · rw [if_neg hp]
      have hprb := pivotSearch_bounds A n k hk
      have hArk : A r k = 0 := hz k (by omega) hk
      have hpr_ne_r : (pivotSearch A n k).1 ≠ r := by
        intro he
        apply hp
        rw [he, hArk]
        norm_num [pivotEps]
      by_cases hsw : (pivotSearch A n k).1 ≠ k
      · rw [if_pos hsw, if_pos hsw]
        have hBkb : ∀ jj, k ≤ jj → jj < n →
            swapRowsFrom A n k (pivotSearch A n k).1 k jj = A (pivotSearch A n k).1 jj := by
          intro jj h1 h2
          rw [swapRowsFrom_apply A n k _ hsw, if_pos ⟨h1, h2⟩, if_pos rfl]
        by_cases hrk : r = k
        · -- the pivot row receives the zero row through the swap
          apply ih (k + 1) _ _ (pivotSearch A n k).1 (by omega) (by omega) hprb.2
          intro j hj1 hj2
          have hBprb : ∀ jj, k ≤ jj → jj < n →
              swapRowsFrom A n k (pivotSearch A n k).1 (pivotSearch A n k).1 jj = A k jj := by
            intro jj h1 h2
            rw [swapRowsFrom_apply A n k _ hsw, if_pos ⟨h1, h2⟩,
              if_neg (by omega : ¬ (pivotSearch A n k).1 = k), if_pos rfl]
          have hzk : ∀ jj, k ≤ jj → jj < n → A k jj = 0 := by
            intro jj h1 h2
            rw [← hrk]
            exact hz jj h1 h2
          rw [elimBelow_apply, if_pos ⟨by omega, hprb.2⟩,
            elimRow_apply _ n k _ (by omega) _ j, if_pos rfl,
            if_neg (by omega : ¬ j = k), if_pos ⟨hj1, hj2⟩,
            hBprb j (by omega) hj2, hBprb k (le_refl k) hk,
            hzk j (by omega) hj2, hzk k (le_refl k) hk]
          simp
        · -- the zero row is not touched by the swap
          apply ih (k + 1) _ _ r (by omega) (by omega) hrn
          intro j hj1 hj2
          have hBr : ∀ jj, swapRowsFrom A n k (pivotSearch A n k).1 r jj = A r jj := by
            intro jj
            rw [swapRowsFrom_apply A n k _ hsw]
            by_cases hjj : k ≤ jj ∧ jj < n
            · rw [if_pos hjj, if_neg (by omega : ¬ r = k),
                if_neg (fun h => hpr_ne_r h.symm)]
            · rw [if_neg hjj]
          rw [elimBelow_apply, if_pos ⟨by omega, hrn⟩,
            elimRow_apply _ n k r (by omega) r j, if_pos rfl,
            if_neg (by omega : ¬ j = k), if_pos ⟨hj1, hj2⟩,
            hBr j, hBr k, hz j (by omega) hj2, hz k (by omega) hk]
          simp
      · rw [if_neg hsw, if_neg hsw]
        have hrk : r ≠ k := by
          intro h
          exact hpr_ne_r (by rw [not_not.mp hsw, h])
        apply ih (k + 1) _ _ r (by omega) (by omega) hrn
        intro j hj1 hj2
        rw [elimBelow_apply, if_pos ⟨by omega, hrn⟩,
          elimRow_apply A n k r (by omega) r j, if_pos rfl,
          if_neg (by omega : ¬ j = k), if_pos ⟨hj1, hj2⟩,
          hz j (by omega) hj2, hz k (by omega) hk]
        simp

theorem gsColStep_none_iff (A : Wr) (n j : Nat) (QR : Wr × Wr) :
    gsColStep A n j QR = none ↔ gsColNorm A n j QR < gsEps := by
  rw [gsColStep]
  by_cases h : gsColNorm A n j QR < gsEps
  · rw [if_pos h]
    simp [h]
  · rw [if_neg h]
    simp [h]

theorem gsCols_none_iff (A : Wr) (n : Nat) (js : List Nat) :
    ∀ QR, gsCols A n js QR = none ↔ gsColsFails A n js QR := by
  induction js with
  | nil =>
    intro QR
    simp [gsCols, gsColsFails]
  | cons j js ih =>
    intro QR
    cases hstep : gsColStep A n j QR with
    | none =>
      simp only [gsCols, gsColsFails, hstep]
      simp [(gsColStep_none_iff A n j QR).mp hstep]
    | some QR1 =>
      have hnb : ¬ gsColNorm A n j QR < gsEps := by
        intro h
        rw [(gsColStep_none_iff A n j QR).mpr h] at hstep
        cases hstep
      simp only [gsCols, gsColsFails, hstep]
      simp [hnb, ih QR1]

theorem qr_decompose_single_none_iff (A : Wr) (n : Nat) :
    qr_decompose_single A n = none
      ↔ gsColsFails A n (List.range n) (fun _ _ => 0, fun _ _ => 0) :=
  gsCols_none_iff A n (List.range n) _

theorem qrIterLoop_none_iff (n : Nat) (tol : ℝ) (fuel : Nat) :
    ∀ (iter : Nat) (A V : Wr),
      qrIterLoop n tol fuel iter A V = none ↔ qrLoopFails n tol fuel A := by
  induction fuel with
  | zero =>
    intro iter A V
    simp [qrIterLoop, qrLoopFails]
  | succ fuel ih =>
    intro iter A V
    by_cases hc : isConverged A n tol
    · simp only [qrIterLoop, qrLoopFails]
      rw [if_pos hc]
      simp [hc]
    · simp only [qrIterLoop, qrLoopFails]
      rw [if_neg hc]
      cases hq : qr_decompose_single A n with
      | none => simp [hq, hc]
      | some QR => simp [hq, hc, ih]

theorem qrIterLoop_exhausted (n : Nat) (tol : ℝ) (iter : Nat) (A V : Wr) :
    qrIterLoop n tol 0 iter A V = some (A, V, iter) := rfl

theorem eigen_qr_single_none_iff (m : RMatrix) (max_iter : Nat) (tol : ℝ)
    (hsq : m.rows = m.cols) :
    eigen_qr_single (some m) max_iter tol = none
      ↔ qrLoopFails m.rows tol max_iter m.data := by
  rw [← qrIterLoop_none_iff m.rows tol max_iter 0 m.data (idWr m.rows)]
  simp only [eigen_qr_single]
  rw [if_neg (by simp [hsq])]
  cases hloop : qrIterLoop m.rows tol max_iter 0 m.data (idWr m.rows) with
  | none => simp
  | some AVit => simp

theorem eigen_qr_single_of_loop (m : RMatrix) (max_iter : Nat) (tol : ℝ)
    (hsq : m.rows = m.cols) (A V : Wr) (it : Nat)
    (hloop : qrIterLoop m.rows tol max_iter 0 m.data (idWr m.rows) = some (A, V, it)) :
    eigen_qr_single (some m) max_iter tol
      = some { eigenvalues := (List.range m.rows).map (fun i => A i i),
               eigenvectors := V, n := m.rows, iterations := it } := by
  simp only [eigen_qr_single]
  rw [if_neg (by simp [hsq]), hloop]

theorem eigen_qr_single_diag (m : RMatrix) (max_iter : Nat) (tol : ℝ)
    (hsq : m.rows = m.cols) (htol : 0 ≤ tol)
    (hdiag : ∀ i j, i < m.rows → j < m.rows → i ≠ j → m.data i j = 0) :
    eigen_qr_single (some m) max_iter tol
      = some { eigenvalues := (List.range m.rows).map (fun i => m.data i i),
               eigenvectors := idWr m.rows, n := m.rows, iterations := 0 } := by
  have hconv : isConverged m.data m.rows tol := by
    intro i hi j hj hne
    rw [hdiag i j hi hj hne]
    simpa using htol
  apply eigen_qr_single_of_loop m max_iter tol hsq
  cases max_iter with
  | zero => rfl
  | succ f =>
    simp only [qrIterLoop]
    rw [if_pos hconv]

theorem selectFastestOp_eq_spec (r1 r2 r3 : Option CMatrix) (t1 t2 t3 : ℚ) :
    selectFastestOp r1 r2 r3 t1 t2 t3 = [r1, r2, r3].getD (specFastestIdx t1 t2 t3) none := by
  rw [selectFastestOp, specFastestIdx]
  by_cases h2 : t2 < t1
  · have hna : ¬ (t1 ≤ t2 ∧ t1 ≤ t3) := by rw [not_and_or]; left; exact not_le.mpr h2
    rw [if_pos h2, if_pos h2, if_neg hna]
    by_cases h3 : t3 < t2
    · have hn23 : ¬ (t2 ≤ t3) := not_le.mpr h3
      rw [if_pos h3, if_neg hn23]
      rfl
    · have h23 : t2 ≤ t3 := not_lt.mp h3
      rw [if_neg h3, if_pos h23]
      rfl
  · rw [if_neg h2, if_neg h2]
    by_cases h3 : t3 < t1
    · have hna : ¬ (t1 ≤ t2 ∧ t1 ≤ t3) := by rw [not_and_or]; right; exact not_le.mpr h3
      have hn23 : ¬ (t2 ≤ t3) := not_le.mpr (lt_of_lt_of_le h3 (not_lt.mp h2))
      rw [if_pos h3, if_neg hna, if_neg hn23]
      rfl
    · have ha : t1 ≤ t2 ∧ t1 ≤ t3 := ⟨not_lt.mp h2, not_lt.mp h3⟩
      rw [if_neg h3, if_pos ha]
      rfl

/-! ## Kernel helper lemmas -/

theorem add_single_eq (m1 m2 : Option CMatrix) (nm : Option String) :
    add_matrices_single m1 m2 nm = add_matrices m1 m2 nm := rfl

theorem add_openmp_eq (m1 m2 : Option CMatrix) (nm : Option String) :
    add_matrices_openmp m1 m2 nm = add_matrices m1 m2 nm := rfl

theorem add_multiprocess_eq (m1 m2 : Option CMatrix) (nm : Option String) :
    add_matrices_multiprocess m1 m2 nm = add_matrices m1 m2 nm := rfl

theorem sub_single_eq (m1 m2 : Option CMatrix) (nm : Option String) :
    subtract_matrices_single m1 m2 nm = subtract_matrices m1 m2 nm := rfl

theorem sub_openmp_eq (m1 m2 : Option CMatrix) (nm : Option String) :
    subtract_matrices_openmp m1 m2 nm = subtract_matrices m1 m2 nm := rfl

theorem sub_multiprocess_eq (m1 m2 : Option CMatrix) (nm : Option String) :
    subtract_matrices_multiprocess m1 m2 nm = subtract_matrices m1 m2 nm := rfl

theorem mul_single_eq (m1 m2 : Option CMatrix) (nm : Option String) :
    multiply_matrices_single m1 m2 nm = multiply_matrices m1 m2 nm := rfl

theorem mul_openmp_eq (m1 m2 : Option CMatrix) (nm : Option String) :
    multiply_matrices_openmp m1 m2 nm = multiply_matrices m1 m2 nm := rfl

theorem mul_multiprocess_eq (m1 m2 : Option CMatrix) (nm : Option String) :
    multiply_matrices_multiprocess m1 m2 nm = multiply_matrices m1 m2 nm := rfl

theorem add_matrices_ok (a b : CMatrix) (nm : String)
    (hr : a.rows = b.rows) (hc : a.cols = b.cols) (h1 : 1 ≤ a.rows) (h2 : 1 ≤ a.cols) :
    add_matrices (some a) (some b) (some nm)
      = some { name := nm, rows := a.rows, cols := a.cols,
               data := fun i j =>
                 if i < a.rows ∧ j < a.cols then a.data i j + b.data i j else 0 } := by
  simp only [add_matrices, create_matrix]
  rw [if_neg (by simp [hr, hc]), if_neg (by omega)]

theorem subtract_matrices_ok (a b : CMatrix) (nm : String)
    (hr : a.rows = b.rows) (hc : a.cols = b.cols) (h1 : 1 ≤ a.rows) (h2 : 1 ≤ a.cols) :
    subtract_matrices (some a) (some b) (some nm)
      = some { name := nm, rows := a.rows, cols := a.cols,
               data := fun i j =>
                 if i < a.rows ∧ j < a.cols then a.data i j - b.data i j else 0 } := by
  simp only [subtract_matrices, create_matrix]
  rw [if_neg (by simp [hr, hc]), if_neg (by omega)]

theorem multiply_matrices_ok (a b : CMatrix) (nm : String)
    (hin : a.cols = b.rows) (h1 : 1 ≤ a.rows) (h2 : 1 ≤ b.cols) :
    multiply_matrices (some a) (some b) (some nm)
      = some { name := nm, rows := a.rows, cols := b.cols,
               data := fun i j =>
                 if i < a.rows ∧ j < b.cols then dotAcc a.data b.data a.cols i j else 0 } := by
  simp only [multiply_matrices, create_matrix]
  rw [if_neg (by simp [hin]), if_neg (by omega)]

theorem add_matrices_mismatch (a b : CMatrix) (nm : String)
    (h : a.rows ≠ b.rows ∨ a.cols ≠ b.cols) :
    add_matrices (some a) (some b) (some nm) = none := by
  simp only [add_matrices]
  rw [if_pos h]

theorem subtract_matrices_mismatch (a b : CMatrix) (nm : String)
    (h : a.rows ≠ b.rows ∨ a.cols ≠ b.cols) :
    subtract_matrices (some a) (some b) (some nm) = none := by
  simp only [subtract_matrices]
  rw [if_pos h]

theorem multiply_matrices_mismatch (a b : CMatrix) (nm : String)
    (h : a.cols ≠ b.rows) :
    multiply_matrices (some a) (some b) (some nm) = none := by
  simp only [multiply_matrices]
  rw [if_pos h]

theorem selectFastestEigen_eq_spec (r1 r2 r3 : Option EigenResult) (t1 t2 t3 : ℝ)
    (hb2 : t2 < 10 ^ 99) (hb3 : t3 < 10 ^ 99) :
    selectFastestEigen r1 r2 r3 t1 t2 t3 = specFastestSuccess r1 r2 r3 t1 t2 t3 := by
  cases r1 with
  | none =>
    cases r2 with
    | none =>
      cases r3 with
      | none => rfl
      | some c =>
        simp only [selectFastestEigen, specFastestSuccess]
        rw [if_pos hb3]
    | some b =>
      cases r3 with
      | none =>
        simp only [selectFastestEigen, specFastestSuccess]
        rw [if_pos hb2]
      | some c =>
        simp only [selectFastestEigen, specFastestSuccess]
        rw [if_pos hb2, if_pos hb2]
  | some a =>
    cases r2 with
    | none =>
      cases r3 with
      | none => rfl
      | some c =>
        simp only [selectFastestEigen, specFastestSuccess]
    | some b =>
      cases r3 with
      | none =>
        simp only [selectFastestEigen, specFastestSuccess]
      | some c =>
        simp only [selectFastestEigen, specFastestSuccess, specFastestIdx]
        by_cases h2 : t2 < t1
        · have hna : ¬ (t1 ≤ t2 ∧ t1 ≤ t3) := by rw [not_and_or]; left; exact not_le.mpr h2
          rw [if_pos h2, if_pos h2, if_neg hna]
          by_cases h3 : t3 < t2
          · have hn23 : ¬ (t2 ≤ t3) := not_le.mpr h3
            rw [if_pos h3, if_neg hn23]
            rfl
          · have h23 : t2 ≤ t3 := not_lt.mp h3
            rw [if_neg h3, if_pos h23]
            rfl
        · rw [if_neg h2, if_neg h2]
          by_cases h3 : t3 < t1
          · have hna : ¬ (t1 ≤ t2 ∧ t1 ≤ t3) := by rw [not_and_or]; right; exact not_le.mpr h3
            have hn23 : ¬ (t2 ≤ t3) := not_le.mpr (lt_of_lt_of_le h3 (not_lt.mp h2))
            rw [if_pos h3, if_neg hna, if_neg hn23]
            rfl
          · have ha : t1 ≤ t2 ∧ t1 ≤ t3 := ⟨not_lt.mp h2, not_lt.mp h3⟩
            rw [if_neg h3, if_pos ha]
            rfl

/-! ## Claims -/

/-- C1: the three execution strategies of one operation compute the same
    mathematical result exactly, each modeled as a sequential function with
    pipe transfers as value passing: `determinant_single`,
    `determinant_openmp` and `determinant_multiprocess` are equal as
    functions, and likewise the single/OpenMP/multiprocess variants of
    addition, subtraction and multiplication (so on every input on which
    all three variants succeed they return the same determinant or result
    matrix). -/
theorem strategies_agree :
    (∀ (m : Option CMatrix) (outOk : Bool) (d0 : ℚ),
        determinant_single m outOk d0 = determinant_openmp m outOk d0
          ∧ determinant_single m outOk d0 = determinant_multiprocess m outOk d0)
    ∧ (∀ (m1 m2 : Option CMatrix) (nm : Option String),
        add_matrices_single m1 m2 nm = add_matrices_openmp m1 m2 nm
          ∧ add_matrices_single m1 m2 nm = add_matrices_multiprocess m1 m2 nm
          ∧ subtract_matrices_single m1 m2 nm = subtract_matrices_openmp m1 m2 nm
          ∧ subtract_matrices_single m1 m2 nm = subtract_matrices_multiprocess m1 m2 nm
          ∧ multiply_matrices_single m1 m2 nm = multiply_matrices_openmp m1 m2 nm
          ∧ multiply_matrices_single m1 m2 nm = multiply_matrices_multiprocess m1 m2 nm) := by
  constructor
  · intro m outOk d0
    refine ⟨rfl, ?_⟩
    cases m with
    | none => rfl
    | some mm =>
      simp only [determinant_single, determinant_multiprocess]
      rw [mpGaussLoop_eq_gaussLoop]
  · intro m1 m2 nm
    exact ⟨rfl, rfl, rfl, rfl, rfl, rfl⟩

/-- C2: with matching shapes (and the data-model extents of at least one),
    addition and subtraction return the element-wise sum and difference of
    that shape, and with `m1.cols = m2.rows` multiplication returns the
    `m1.rows x m2.cols` matrix of dot products; a failed shape condition
    yields NULL with no result, in the base kernel and in every strategy
    variant. -/
theorem kernels_functional_correctness (a b : CMatrix) (nm : String) :
    ((a.rows = b.rows ∧ a.cols = b.cols ∧ 1 ≤ a.rows ∧ 1 ≤ a.cols) →
      ∃ r, add_matrices (some a) (some b) (some nm) = some r
        ∧ r.rows = a.rows ∧ r.cols = a.cols
        ∧ (∀ i j, i < r.rows → j < r.cols → r.data i j = a.data i j + b.data i j)
        ∧ add_matrices_single (some a) (some b) (some nm) = some r
        ∧ add_matrices_openmp (some a) (some b) (some nm) = some r
        ∧ add_matrices_multiprocess (some a) (some b) (some nm) = some r)
    ∧ ((a.rows = b.rows ∧ a.cols = b.cols ∧ 1 ≤ a.rows ∧ 1 ≤ a.cols) →
      ∃ r, subtract_matrices (some a) (some b) (some nm) = some r
        ∧ r.rows = a.rows ∧ r.cols = a.cols
        ∧ (∀ i j, i < r.rows → j < r.cols → r.data i j = a.data i j - b.data i j)
        ∧ subtract_matrices_single (some a) (some b) (some nm) = some r
        ∧ subtract_matrices_openmp (some a) (some b) (some nm) = some r
        ∧ subtract_matrices_multiprocess (some a) (some b) (some nm) = some r)
    ∧ ((a.cols = b.rows ∧ 1 ≤ a.rows ∧ 1 ≤ b.cols) →
      ∃ r, multiply_matrices (some a) (some b) (some nm) = some r
        ∧ r.rows = a.rows ∧ r.cols = b.cols
        ∧ (∀ i j, i < r.rows → j < r.cols →
            r.data i j = ∑ x ∈ Finset.range a.cols, a.data i x * b.data x j)
        ∧ multiply_matrices_single (some a) (some b) (some nm) = some r
        ∧ multiply_matrices_openmp (some a) (some b) (some nm) = some r
        ∧ multiply_matrices_multiprocess (some a) (some b) (some nm) = some r)
    ∧ ((a.rows ≠ b.rows ∨ a.cols ≠ b.cols) →
        add_matrices (some a) (some b) (some nm) = none
        ∧ add_matrices_single (some a) (some b) (some nm) = none
        ∧ add_matrices_openmp (some a) (some b) (some nm) = none
        ∧ add_matrices_multiprocess (some a) (some b) (some nm) = none
        ∧ subtract_matrices (some a) (some b) (some nm) = none
        ∧ subtract_matrices_single (some a) (some b) (some nm) = none
        ∧ subtract_matrices_openmp (some a) (some b) (some nm) = none
        ∧ subtract_matrices_multiprocess (some a) (some b) (some nm) = none)
    ∧ (a.cols ≠ b.rows →
        multiply_matrices (some a) (some b) (some nm) = none
        ∧ multiply_matrices_single (some a) (some b) (some nm) = none
        ∧ multiply_matrices_openmp (some a) (some b) (some nm) = none
        ∧ multiply_matrices_multiprocess (some a) (some b) (some nm) = none) := by
  refine ⟨?_, ?_, ?_, ?_, ?_⟩
  · rintro ⟨hr, hc, h1, h2⟩
    refine ⟨_, add_matrices_ok a b nm hr hc h1 h2, rfl, rfl, ?_, ?_, ?_, ?_⟩
    · intro i j hi hj
      exact if_pos ⟨hi, hj⟩
    · rw [add_single_eq, add_matrices_ok a b nm hr hc h1 h2]
    · rw [add_openmp_eq, add_matrices_ok a b nm hr hc h1 h2]
    · rw [add_multiprocess_eq, add_matrices_ok a b nm hr hc h1 h2]
  · rintro ⟨hr, hc, h1, h2⟩
    refine ⟨_, subtract_matrices_ok a b nm hr hc h1 h2, rfl, rfl, ?_, ?_, ?_, ?_⟩
    · intro i j hi hj
      exact if_pos ⟨hi, hj⟩
    · rw [sub_single_eq, subtract_matrices_ok a b nm hr hc h1 h2]
    · rw [sub_openmp_eq, subtract_matrices_ok a b nm hr hc h1 h2]
    · rw [sub_multiprocess_eq, subtract_matrices_ok a b nm hr hc h1 h2]
  · rintro ⟨hin, h1, h2⟩
    refine ⟨_, multiply_matrices_ok a b nm hin h1 h2, rfl, rfl, ?_, ?_, ?_, ?_⟩
    · intro i j hi hj
      exact (if_pos ⟨hi, hj⟩).trans (dotAcc_eq_sum a.data b.data a.cols i j)
    · rw [mul_single_eq, multiply_matrices_ok a b nm hin h1 h2]
    · rw [mul_openmp_eq, multiply_matrices_ok a b nm hin h1 h2]
    · rw [mul_multiprocess_eq, multiply_matrices_ok a b nm hin h1 h2]
  · intro h
    refine ⟨add_matrices_mismatch a b nm h, ?_, ?_, ?_,
      subtract_matrices_mismatch a b nm h, ?_, ?_, ?_⟩
    · rw [add_single_eq, add_matrices_mismatch a b nm h]
    · rw [add_openmp_eq, add_matrices_mismatch a b nm h]
    · rw [add_multiprocess_eq, add_matrices_mismatch a b nm h]
    · rw [sub_single_eq, subtract_matrices_mismatch a b nm h]
    · rw [sub_openmp_eq, subtract_matrices_mismatch a b nm h]
    · rw [sub_multiprocess_eq, subtract_matrices_mismatch a b nm h]
  · intro h
    refine ⟨multiply_matrices_mismatch a b nm h, ?_, ?_, ?_⟩
    · rw [mul_single_eq, multiply_matrices_mismatch a b nm h]
    · rw [mul_openmp_eq, multiply_matrices_mismatch a b nm h]
    · rw [mul_multiprocess_eq, multiply_matrices_mismatch a b nm h]

/-- Witness for C2 at concrete 2 x 2 inputs, with a 2 x 3 input for the
    shape-mismatch cases. -/
theorem kernels_functional_correctness_witness :
    (∃ r, add_matrices (some WA) (some WB) (some "res") = some r
      ∧ r.rows = WA.rows ∧ r.cols = WA.cols
      ∧ (∀ i j, i < r.rows → j < r.cols → r.data i j = WA.data i j + WB.data i j)
      ∧ add_matrices_single (some WA) (some WB) (some "res") = some r
      ∧ add_matrices_openmp (some WA) (some WB) (some "res") = some r
      ∧ add_matrices_multiprocess (some WA) (some WB) (some "res") = some r)
    ∧ add_matrices (some WA) (some WC) (some "res") = none
    ∧ multiply_matrices (some WC) (some WA) (some "res") = none := by
  refine ⟨(kernels_functional_correctness WA WB "res").1 ⟨rfl, rfl, by norm_num [WA], by norm_num [WA]⟩, ?_, ?_⟩
  · exact ((kernels_functional_correctness WA WC "res").2.2.2.1 (by right; norm_num [WA, WC])).1
  · exact ((kernels_functional_correctness WC WA "res").2.2.2.2 (by norm_num [WA, WC])).1

/-- C3: whenever an elimination step `k` is reached at which every
    candidate pivot magnitude `|A[i][k]|` for `i = k .. n-1` is below the
    `1e-12` threshold, the loop exits early with determinant exactly `0`,
    and for a non-NULL square input the wrapper reports success (return
    value 1) while writing the loop's value. -/
theorem det_singular_early_exit (n k : Nat) (ks : List Nat) (A : Wq) (sign : ℚ)
    (m : CMatrix) (d0 : ℚ)
    (hk : k < n) (hsmall : ∀ i, k ≤ i → i < n → |A i k| < pivotEps)
    (hsq : m.rows = m.cols) :
    gaussLoop n (k :: ks) A sign = 0
    ∧ determinant_gauss_partial_pivot (some m) true d0
        = (1, gaussLoop m.rows (List.range m.rows) m.data 1)
    ∧ determinant_single (some m) true d0
        = (1, gaussLoop m.rows (List.range m.rows) m.data 1) := by
  refine ⟨gaussLoop_small_pivot n k ks A sign hk hsmall, ?_, ?_⟩
  · simp only [determinant_gauss_partial_pivot, detGaussCore]
    rw [if_neg (by simp), if_neg (by simp [hsq])]
  · simp only [determinant_single]
    rw [if_neg (by simp), if_neg (by simp [hsq])]

/-- Witness for C3: the 1 x 1 zero matrix hits the threshold at step 0. -/
theorem det_singular_early_exit_witness :
    gaussLoop 1 [0] (fun _ _ => 0) 1 = 0
    ∧ determinant_gauss_partial_pivot (some WZ1) true 5
        = (1, gaussLoop WZ1.rows (List.range WZ1.rows) WZ1.data 1)
    ∧ determinant_single (some WZ1) true 5
        = (1, gaussLoop WZ1.rows (List.range WZ1.rows) WZ1.data 1) :=
  det_singular_early_exit 1 0 [] (fun _ _ => 0) 1 WZ1 5 (by norm_num)
    (fun i h1 h2 => by norm_num [pivotEps]) rfl

/-- C4: on square inputs the returned determinant refines the
    specification-side elimination in which the pivot row is the argmax
    with ties broken toward the smallest index, the sign multiplier starts
    at `+1` and flips exactly once per executed row swap, and the result is
    sign times the product of the final diagonal. -/
theorem det_refines_sign_times_diag (m : CMatrix) (d0 : ℚ) (hsq : m.rows = m.cols) :
    determinant_gauss_partial_pivot (some m) true d0 = (1, detSpec m.rows m.data) := by
  simp only [determinant_gauss_partial_pivot]
  rw [if_neg (by simp), if_neg (by simp [hsq]), detGaussCore_eq_detSpec]

/-- Witness for C4 at a matrix whose elimination executes a row swap. -/
theorem det_refines_sign_times_diag_witness :
    determinant_gauss_partial_pivot (some WS) true 0 = (1, detSpec WS.rows WS.data)
    ∧ detSpec 2 WS.data = -2 := by
  refine ⟨det_refines_sign_times_diag WS 0 rfl, ?_⟩
  have hr : List.range' 0 (2 - 0) = [0, 1] := rfl
  norm_num [detSpec, gaussSpecLoop, pivotSpec, hr, argmaxL_cons, argmaxL_single,
    elimBelow, elimRow, rowUpdStep, swapRowsFrom, swapStep, setE_apply,
    List.range_succ, WS, pivotEps, rabs_def]

/-- C5 (amended): for every diagonal square input with a nonnegative
    tolerance, the eigen solver returns eigenvalues equal to the diagonal
    entries in their original order and converges immediately: the returned
    iteration count is `0`, not `1`. -/
theorem eigen_qr_diagonal_immediate (m : RMatrix) (max_iter : Nat) (tol : ℝ)
    (hsq : m.rows = m.cols) (htol : 0 ≤ tol)
    (hdiag : ∀ i j, i < m.rows → j < m.rows → i ≠ j → m.data i j = 0) :
    ∃ r, eigen_qr_single (some m) max_iter tol = some r
      ∧ r.iterations = 0
      ∧ r.eigenvalues = (List.range m.rows).map (fun i => m.data i i) :=
  ⟨_, eigen_qr_single_diag m max_iter tol hsq htol hdiag, rfl, rfl⟩

/-- Witness for the amended C5 at the concrete diagonal matrix
    `diag(2, 3)`. -/
theorem eigen_qr_diagonal_immediate_witness :
    ∃ r, eigen_qr_single (some D23) 500 0 = some r
      ∧ r.iterations = 0
      ∧ r.eigenvalues = (List.range D23.rows).map (fun i => D23.data i i) :=
  eigen_qr_diagonal_immediate D23 500 0 rfl le_rfl
    (fun i j _ _ hne => by simp [D23, hne])

/-- C5 counterexample: on the diagonal matrix `diag(2, 3)` with the default
    round budget and tolerance, no returned result carries iteration count
    `1`; the solver converges before the first round and reports `0`. -/
theorem eigen_qr_diagonal_not_one_round :
    ¬ ∃ r, eigen_qr_single (some D23) 500 ((1 : ℝ) / 10 ^ 10) = some r
        ∧ r.iterations = 1 := by
  rintro ⟨r, hr, hit⟩
  rw [eigen_qr_single_diag D23 500 ((1 : ℝ) / 10 ^ 10) rfl (by norm_num)
    (fun i j _ _ hne => by simp [D23, hne])] at hr
  obtain rfl := Option.some.inj hr
  simp at hit

/-- C6: on a square input the eigen computation returns NULL exactly when
    an executed (unconverged) round's decomposition breaks down, the
    decomposition fails exactly when some column's post-orthogonalization
    norm is below the `1e-14` threshold, exhausting the round budget is not
    a failure (the state reached is returned), and a completed loop's round
    count is exposed unchanged as the result's `iterations` field. -/
theorem eigen_failure_semantics (m : RMatrix) (max_iter : Nat) (tol : ℝ)
    (A V : Wr) (n it : Nat) (hsq : m.rows = m.cols) :
    (eigen_qr_single (some m) max_iter tol = none ↔ qrLoopFails m.rows tol max_iter m.data)
    ∧ (qr_decompose_single A n = none
        ↔ gsColsFails A n (List.range n) (fun _ _ => 0, fun _ _ => 0))
    ∧ qrIterLoop n tol 0 it A V = some (A, V, it)
    ∧ (∀ A2 V2 it2,
        qrIterLoop m.rows tol max_iter 0 m.data (idWr m.rows) = some (A2, V2, it2) →
        eigen_qr_single (some m) max_iter tol
          = some { eigenvalues := (List.range m.rows).map (fun i => A2 i i),
                   eigenvectors := V2, n := m.rows, iterations := it2 }) :=
  ⟨eigen_qr_single_none_iff m max_iter tol hsq,
   qr_decompose_single_none_iff A n,
   qrIterLoop_exhausted n tol it A V,
   fun A2 V2 it2 h => eigen_qr_single_of_loop m max_iter tol hsq A2 V2 it2 h⟩

/-- Witness for C6 at a concrete 1 x 1 input. -/
theorem eigen_failure_semantics_witness :
    (eigen_qr_single (some R1) 5 0 = none ↔ qrLoopFails R1.rows 0 5 R1.data)
    ∧ qrIterLoop 1 0 0 7 (idWr 1) (idWr 1) = some (idWr 1, idWr 1, 7) := by
  have h := eigen_failure_semantics R1 5 0 (idWr 1) (idWr 1) 1 7 rfl
  exact ⟨h.1, h.2.2.1⟩

/-- C7: the operation harness returns, renamed to the requested name, the
    strategy result selected by the least-elapsed-time rule with exact ties
    preferring Sequential then SharedMemory then ProcessIsolated; the eigen
    harness's selection equals the spec's fastest-successful rule (a lone
    success winning unconditionally, no success yielding no result) for
    measured times below the `1e99` failure sentinel; and on square inputs
    the eigen harness is exactly that selection applied to the three
    strategy results as the strategies report them — for the multiprocess
    eigen strategy "success" is as reported: a result is returned even when
    a round's decomposition broke down in the child, since the parent never
    observes the child's exit status and continues on stale buffers. -/
theorem harness_returns_fastest (m1 m2 : CMatrix) (nm : String) (t1 t2 t3 : ℚ)
    (r1 r2 r3 : Option EigenResult) (em : RMatrix) (mi : Nat) (tol : ℝ) (q0 r0 : Wr)
    (rt1 rt2 rt3 : ℝ) (hb2 : rt2 < 10 ^ 99) (hb3 : rt3 < 10 ^ 99)
    (hsq : em.rows = em.cols) :
    run_operation_comparison (some m1) (some m2) (some nm) (some "Addition") true t1 t2 t3
      = Option.map (fun r => { r with name := nm })
          ([add_matrices_single (some m1) (some m2) (some (nm ++ "_single")),
            add_matrices_openmp (some m1) (some m2) (some (nm ++ "_openmp")),
            add_matrices_multiprocess (some m1) (some m2) (some (nm ++ "_multiproc"))].getD
            (specFastestIdx t1 t2 t3) none)
    ∧ run_operation_comparison (some m1) (some m2) (some nm) (some "Subtraction") true t1 t2 t3
      = Option.map (fun r => { r with name := nm })
          ([subtract_matrices_single (some m1) (some m2) (some (nm ++ "_single")),
            subtract_matrices_openmp (some m1) (some m2) (some (nm ++ "_openmp")),
            subtract_matrices_multiprocess (some m1) (some m2) (some (nm ++ "_multiproc"))].getD
            (specFastestIdx t1 t2 t3) none)
    ∧ run_operation_comparison (some m1) (some m2) (some nm) (some "Multiplication") true t1 t2 t3
      = Option.map (fun r => { r with name := nm })
          ([multiply_matrices_single (some m1) (some m2) (some (nm ++ "_single")),
            multiply_matrices_openmp (some m1) (some m2) (some (nm ++ "_openmp")),
            multiply_matrices_multiprocess (some m1) (some m2) (some (nm ++ "_multiproc"))].getD
            (specFastestIdx t1 t2 t3) none)
    ∧ selectFastestEigen r1 r2 r3 rt1 rt2 rt3 = specFastestSuccess r1 r2 r3 rt1 rt2 rt3
    ∧ run_eigen_comparison (some em) mi tol q0 r0 true rt1 rt2 rt3
        = selectFastestEigen (eigen_qr_single (some em) mi tol)
            (eigen_qr_openmp (some em) mi tol)
            (eigen_qr_multiprocess (some em) mi tol q0 r0)
            rt1 rt2 rt3 := by
  refine ⟨?_, ?_, ?_, selectFastestEigen_eq_spec r1 r2 r3 rt1 rt2 rt3 hb2 hb3, ?_⟩
  · rw [← selectFastestOp_eq_spec
      (add_matrices_single (some m1) (some m2) (some (nm ++ "_single")))
      (add_matrices_openmp (some m1) (some m2) (some (nm ++ "_openmp")))
      (add_matrices_multiprocess (some m1) (some m2) (some (nm ++ "_multiproc"))) t1 t2 t3]
    rcases hsel : selectFastestOp
        (add_matrices_single (some m1) (some m2) (some (nm ++ "_single")))
        (add_matrices_openmp (some m1) (some m2) (some (nm ++ "_openmp")))
        (add_matrices_multiprocess (some m1) (some m2) (some (nm ++ "_multiproc")))
        t1 t2 t3 with _ | r
    · simp [run_operation_comparison, hsel]
    · simp [run_operation_comparison, hsel]
  · rw [← selectFastestOp_eq_spec
      (subtract_matrices_single (some m1) (some m2) (some (nm ++ "_single")))
      (subtract_matrices_openmp (some m1) (some m2) (some (nm ++ "_openmp")))
      (subtract_matrices_multiprocess (some m1) (some m2) (some (nm ++ "_multiproc"))) t1 t2 t3]
    rcases hsel : selectFastestOp
        (subtract_matrices_single (some m1) (some m2) (some (nm ++ "_single")))
        (subtract_matrices_openmp (some m1) (some m2) (some (nm ++ "_openmp")))
        (subtract_matrices_multiprocess (some m1) (some m2) (some (nm ++ "_multiproc")))
        t1 t2 t3 with _ | r
    · simp [run_operation_comparison, hsel]
    · simp [run_operation_comparison, hsel]
  · rw [← selectFastestOp_eq_spec
      (multiply_matrices_single (some m1) (some m2) (some (nm ++ "_single")))
      (multiply_matrices_openmp (some m1) (some m2) (some (nm ++ "_openmp")))
      (multiply_matrices_multiprocess (some m1) (some m2) (some (nm ++ "_multiproc"))) t1 t2 t3]
    rcases hsel : selectFastestOp
        (multiply_matrices_single (some m1) (some m2) (some (nm ++ "_single")))
        (multiply_matrices_openmp (some m1) (some m2) (some (nm ++ "_openmp")))
        (multiply_matrices_multiprocess (some m1) (some m2) (some (nm ++ "_multiproc")))
        t1 t2 t3 with _ | r
    · simp [run_operation_comparison, hsel]
    · simp [run_operation_comparison, hsel]
  · simp only [run_eigen_comparison]
    rw [if_neg (by simp), if_neg (by simp [hsq])]

/-- Witness for C7 with concrete matrices and times (OpenMP fastest for the
    operation harness; a lone Sequential success for the eigen selection). -/
theorem harness_returns_fastest_witness :
    run_operation_comparison (some WA) (some WB) (some "res") (some "Addition") true 3 1 2
      = Option.map (fun r => { r with name := "res" })
          ([add_matrices_single (some WA) (some WB) (some ("res" ++ "_single")),
            add_matrices_openmp (some WA) (some WB) (some ("res" ++ "_openmp")),
            add_matrices_multiprocess (some WA) (some WB) (some ("res" ++ "_multiproc"))].getD
            (specFastestIdx (3 : ℚ) 1 2) none)
    ∧ selectFastestEigen (some ER1) none none 1 2 3
        = specFastestSuccess (some ER1) none none 1 2 3 := by
  have h := harness_returns_fastest WA WB "res" 3 1 2 (some ER1) none none R1 1 0
    (idWr 1) (idWr 1) 1 2 3 (by norm_num) (by norm_num) rfl
  exact ⟨h.1, h.2.2.2.1⟩

/-- C8: the determinant of an identity matrix of any size at least 1 is
    exactly `1.0`, and the determinant of any square matrix containing an
    all-zero row is exactly `0.0`, for the base elimination and the
    single-thread variant alike. -/
theorem det_identity_and_zero_row (m z : CMatrix) (d0 e0 : ℚ)
    (hsqm : m.rows = m.cols) (hpos : 1 ≤ m.rows)
    (hid : ∀ i j, i < m.rows → j < m.rows → m.data i j = if i = j then 1 else 0)
    (hsqz : z.rows = z.cols) (r : Nat) (hr : r < z.rows)
    (hz : ∀ j, j < z.rows → z.data r j = 0) :
    determinant_gauss_partial_pivot (some m) true d0 = (1, 1)
    ∧ determinant_single (some m) true d0 = (1, 1)
    ∧ determinant_gauss_partial_pivot (some z) true e0 = (1, 0)
    ∧ determinant_single (some z) true e0 = (1, 0) := by
  have hID : gaussLoop m.rows (List.range m.rows) m.data 1 = 1 :=
    gaussLoop_identity m.rows (List.range m.rows) m.data 1
      (fun k hk => List.mem_range.mp hk) hid
  have hZR : gaussLoop z.rows (List.range z.rows) z.data 1 = 0 := by
    rw [List.range_eq_range']
    exact gaussLoop_zero_row z.rows z.rows 0 z.data 1 r (by omega) (by omega) hr
      (fun j _ hj => hz j hj)
  refine ⟨?_, ?_, ?_, ?_⟩
  · simp only [determinant_gauss_partial_pivot, detGaussCore]
    rw [if_neg (by simp), if_neg (by simp [hsqm]), hID]
  · simp only [determinant_single]
    rw [if_neg (by simp), if_neg (by simp [hsqm]), hID]
  · simp only [determinant_gauss_partial_pivot, detGaussCore]
    rw [if_neg (by simp), if_neg (by simp [hsqz]), hZR]
  · simp only [determinant_single]
    rw [if_neg (by simp), if_neg (by simp [hsqz]), hZR]

/-- Witness for C8 at the 2 x 2 identity and at a 2 x 2 matrix whose second
    row is zero. -/
theorem det_identity_and_zero_row_witness :
    determinant_gauss_partial_pivot (some WI2) true 7 = (1, 1)
    ∧ determinant_single (some WI2) true 7 = (1, 1)
    ∧ determinant_gauss_partial_pivot (some WZ2) true 7 = (1, 0)
    ∧ determinant_single (some WZ2) true 7 = (1, 0) :=
  det_identity_and_zero_row WI2 WZ2 7 7 rfl (by norm_num [WI2])
    (fun i j _ _ => rfl) rfl 1 (by norm_num [WZ2]) (fun j _ => by simp [WZ2])

/-- C9: every division performed by the elimination-based determinant
    (`factor = A[i][k] / A[k][k]` after pivoting) has a divisor of
    magnitude at least the singularity threshold `1e-12`: every entry of
    the run's divisor trace satisfies the bound. -/
theorem elimination_divisors_above_threshold (n : Nat) (A : Wq) (d : ℚ)
    (hd : d ∈ gaussDivisors n A) : pivotEps ≤ |d| :=
  gaussDivisors_ge n A d hd

/-- Witness for C9: the divisor trace of the 2 x 2 identity is `[1]`. -/
theorem elimination_divisors_witness :
    (1 : ℚ) ∈ gaussDivisors 2 WI2.data ∧ pivotEps ≤ |(1 : ℚ)| := by
  have hr2 : List.range 2 = [0, 1] := rfl
  have hmem : (1 : ℚ) ∈ gaussDivisors 2 WI2.data := by
    norm_num [gaussDivisors, gaussDivLoop, pivotSearch, pivotStep, hr2,
      elimBelow, elimRow, rowUpdStep, setE_apply, WI2, pivotEps, rabs_def,
      List.range_succ]
  exact ⟨hmem, elimination_divisors_above_threshold 2 WI2.data 1 hmem⟩

/-- C10: every failing determinant call (NULL matrix pointer, NULL output
    pointer, or non-square input) returns 0 with `*out_det` left at its
    prior contents, and a call returns 1 exactly when both pointers are
    valid and the input is square — only then is `*out_det` written, in all
    four determinant functions. -/
theorem det_failure_leaves_out_unchanged (m : Option CMatrix) (outOk : Bool) (d0 : ℚ) :
    ((determinant_gauss_partial_pivot m outOk d0).1 = 0
        → (determinant_gauss_partial_pivot m outOk d0).2 = d0)
    ∧ ((determinant_gauss_partial_pivot m outOk d0).1 = 1
        ↔ outOk = true ∧ ∃ mm, m = some mm ∧ mm.rows = mm.cols)
    ∧ ((determinant_single m outOk d0).1 = 0 → (determinant_single m outOk d0).2 = d0)
    ∧ ((determinant_single m outOk d0).1 = 1
        ↔ outOk = true ∧ ∃ mm, m = some mm ∧ mm.rows = mm.cols)
    ∧ ((determinant_openmp m outOk d0).1 = 0 → (determinant_openmp m outOk d0).2 = d0)
    ∧ ((determinant_openmp m outOk d0).1 = 1
        ↔ outOk = true ∧ ∃ mm, m = some mm ∧ mm.rows = mm.cols)
    ∧ ((determinant_multiprocess m outOk d0).1 = 0
        → (determinant_multiprocess m outOk d0).2 = d0)
    ∧ ((determinant_multiprocess m outOk d0).1 = 1
        ↔ outOk = true ∧ ∃ mm, m = some mm ∧ mm.rows = mm.cols) := by
  cases m with
  | none =>
    simp [determinant_gauss_partial_pivot, determinant_single, determinant_openmp,
      determinant_multiprocess]
  | some mm =>
    cases outOk with
    | false =>
      simp [determinant_gauss_partial_pivot, determinant_single, determinant_openmp,
        determinant_multiprocess]
    | true =>
      by_cases h : mm.rows = mm.cols
      · simp [determinant_gauss_partial_pivot, determinant_single, determinant_openmp,
          determinant_multiprocess, h]
      · simp [determinant_gauss_partial_pivot, determinant_single, determinant_openmp,
          determinant_multiprocess, h]

end FirstProject
